import Mathlib

/-!
# Verification of `mstar_at_multi_zobs` (chopperhack19)

Shallow embedding of `src/chopperhack19/sfr_history/mstar_mhalo_at_multiz.py`.
The numba kernel walks a shared time/redshift grid, derives halo mass, maximum
circular velocity and star-formation rate per halo and per step, accumulates
stellar mass by forward Euler, and snapshots `(mstar, sfr, halo_mass)` into a
flat results buffer at caller-requested output indices.

Machine floating point is modelled by exact real arithmetic (`ℝ`, with
`Real.exp`, `Real.log`, `Real.logb 10` and real exponentiation `rpow` standing
for `exp`, `log`, `log10` and `**`).  Arrays are modelled as total functions
out of `ℕ`: positions beyond the logical length stand for whatever memory the
unchecked numba indexing would reach, so out-of-bounds behaviour is quantified
over all possible contents instead of being ignored.  The integrator state
carries two ghost trace fields (`writes`, `reads`) recording, in program
order, the buffer indices stored to and loaded from; they have no influence on
the computation and exist solely to express the write-once/read-back claims.
-/

namespace Chopper

/-- The 19 named SFR fitting coefficients of `mstar_at_multi_zobs`, with the
default values of the Python keyword arguments. -/
structure SFRCoeffs where
  logV_0 : ℝ := 2.151
  logV_a : ℝ := -1.658
  logV_lnz : ℝ := 1.68
  logV_z : ℝ := -0.233
  alpha_0 : ℝ := -5.598
  alpha_a : ℝ := -20.731
  alpha_lnz : ℝ := 13.455
  alpha_z : ℝ := -1.321
  beta_0 : ℝ := -1.911
  beta_a : ℝ := 0.395
  beta_z : ℝ := 0.747
  gamma_0 : ℝ := -1.699
  gamma_a : ℝ := 4.206
  gamma_z : ℝ := -0.809
  delta_0 : ℝ := 0.055
  epsilon_0 : ℝ := 0.109
  epsilon_a : ℝ := -3.441
  epsilon_lnz : ℝ := 5.079
  epsilon_z : ℝ := -0.781

/-- The coefficient defaults produced by the Python signature's keyword
defaults. -/
noncomputable def defaultSFRCoeffs : SFRCoeffs := {}

/-- The keyword parameters of the Python entry point that are SFR fitting
coefficients, as (name, default) pairs, read off the `def` line of
`mstar_at_multi_zobs` in source order. -/
noncomputable def sfrCoeffDefaults : List (String × ℝ) :=
  [("logV_0", 2.151), ("logV_a", -1.658), ("logV_lnz", 1.68), ("logV_z", -0.233),
   ("alpha_0", -5.598), ("alpha_a", -20.731), ("alpha_lnz", 13.455), ("alpha_z", -1.321),
   ("beta_0", -1.911), ("beta_a", 0.395), ("beta_z", 0.747),
   ("gamma_0", -1.699), ("gamma_a", 4.206), ("gamma_z", -0.809), ("delta_0", 0.055),
   ("epsilon_0", 0.109), ("epsilon_a", -3.441), ("epsilon_lnz", 5.079), ("epsilon_z", -0.781)]

/-- "Calculate halo mass at redshift z" block of the loop body, for one halo
with present-day peak mass `mp_z0`, at redshift `z` and scale factor `a`
(the caller computes `a = 1/(1+z)`). -/
noncomputable def halo_mass_at_z (mp_z0 z a : ℝ) : ℝ :=
  let _M13_z0 : ℝ := (10 : ℝ) ^ (13.276 : ℝ)
  let _M13_zfactor1 := (1 + z) ^ (3.0 : ℝ)
  let _M13_zfactor2 := (1 + 0.5 * z) ^ (-6.11 : ℝ)
  let _M13_zfactor3 := Real.exp (-0.503 * z)
  let _M13 := _M13_z0 * _M13_zfactor1 * _M13_zfactor2 * _M13_zfactor3
  let _exparg_factor1 := Real.logb 10 (mp_z0 / _M13_z0)
  let logarg := (((10 : ℝ) ^ (9.649 : ℝ)) / mp_z0) ^ (0.18 : ℝ)
  let a0 := 0.205 - Real.logb 10 (logarg + 1)
  let _factor2_num := 1 + Real.exp (-4.651 * (1 - a0))
  let _factor2_denom := 1 + Real.exp (-4.651 * (a - a0))
  let _exparg_factor2 := _factor2_num / _factor2_denom
  let _exparg := _exparg_factor1 * _exparg_factor2
  _M13 * ((10 : ℝ) ^ _exparg)

/-- "Calculate vmax at redshift z" block of the loop body. -/
noncomputable def vmax_at_z (halo_mass a : ℝ) : ℝ :=
  let denom_term1 := (a / 0.378) ^ (-0.142 : ℝ)
  let denom_term2 := (a / 0.378) ^ (-1.79 : ℝ)
  let mpivot := 1.64e12 / (denom_term1 + denom_term2)
  200 * (halo_mass / mpivot) ^ ((1 : ℝ) / 3)

/-- "Calculate sfr at redshift z" block of the loop body. -/
noncomputable def sfr_at_z (c : SFRCoeffs) (vmax a z : ℝ) : ℝ :=
  let V := (10 : ℝ) ^ (c.logV_0 + c.logV_a * (1 - a) + c.logV_lnz * Real.log (1 + z) +
    c.logV_z * z)
  let v := vmax / V
  let _a := c.alpha_0 + c.alpha_a * (1 - a) + c.alpha_lnz * Real.log (1 + z) + c.alpha_z * z
  let _b := c.beta_0 + c.beta_a * (1 - a) + c.beta_z * z
  let term1 := 1 / (v ^ _a + v ^ _b)
  let _log10v := Real.logb 10 v
  let exp_arg := (-_log10v * _log10v) / (2 * c.delta_0)
  let _logGamma := c.gamma_0 + c.gamma_a * (1 - a) + c.gamma_z * z
  let term2 := ((10 : ℝ) ^ _logGamma) * Real.exp exp_arg
  let log10_epsilon := c.epsilon_0 + c.epsilon_a * (1 - a) + c.epsilon_lnz * Real.log (1 + z) +
    c.epsilon_z * z
  ((10 : ℝ) ^ log10_epsilon) * (term1 + term2)

/-- Integrator state: the (unbounded) results buffer, `_last_time`, the
output-index cursor `iout`, plus the two ghost trace fields. -/
structure IntState where
  results : ℕ → ℝ
  lastTime : ℝ
  iout : ℕ
  writes : List ℕ
  reads : List ℕ

/-- The body of the inner `for ihalo in range(nhalos)` loop for one halo,
given the per-timestep values `z`, `a`, `dt`, the timestep index `itime`, the
pre-read `next_output_indx` and the cursor value `iout` at the start of the
timestep. -/
noncomputable def haloBody (c : SFRCoeffs) (nhalos ntimes_out : ℕ) (core_mpeak_at_z0 : ℕ → ℝ)
    (z a dt : ℝ) (itime next_output_indx iout : ℕ) (s : IntState) (ihalo : ℕ) : IntState :=
  let nobs_out : ℕ := 3
  let final_mstar_indx_offset := (ntimes_out - 1) * nhalos * nobs_out
  let mstar_indx_offset := iout * nhalos * nobs_out
  let sfr_indx_offset := mstar_indx_offset + nhalos
  let mhalo_indx_offset := mstar_indx_offset + 2 * nhalos
  let mp_z0 := core_mpeak_at_z0 ihalo
  let halo_mass := halo_mass_at_z mp_z0 z a
  let vmax := vmax_at_z halo_mass a
  let sfr := sfr_at_z c vmax a z
  let r1 := Function.update s.results (final_mstar_indx_offset + ihalo)
    (s.results (final_mstar_indx_offset + ihalo) + sfr * dt)
  let s1 : IntState :=
    { s with results := r1,
             writes := s.writes ++ [final_mstar_indx_offset + ihalo],
             reads := s.reads ++ [final_mstar_indx_offset + ihalo] }
  if itime = next_output_indx then
    let r2 := Function.update s1.results (mstar_indx_offset + ihalo)
      (s1.results (final_mstar_indx_offset + ihalo))
    let r3 := Function.update r2 (sfr_indx_offset + ihalo) sfr
    let r4 := Function.update r3 (mhalo_indx_offset + ihalo) halo_mass
    { s1 with results := r4,
              writes := s1.writes ++ [mstar_indx_offset + ihalo, sfr_indx_offset + ihalo,
                mhalo_indx_offset + ihalo],
              reads := s1.reads ++ [final_mstar_indx_offset + ihalo] }
  else s1

/-- One iteration of the outer `for itime in range(ntimes)` loop. -/
noncomputable def timeStep (c : SFRCoeffs) (nhalos ntimes_out : ℕ)
    (core_mpeak_at_z0 times redshifts : ℕ → ℝ) (output_indices : ℕ → ℕ)
    (s : IntState) (itime : ℕ) : IntState :=
  let t := times itime
  let dt := t - s.lastTime
  let z := redshifts itime
  let a := 1 / (1 + z)
  let next_output_indx := output_indices s.iout
  let s' := (List.range nhalos).foldl
    (haloBody c nhalos ntimes_out core_mpeak_at_z0 z a dt itime next_output_indx s.iout) s
  { s' with lastTime := t,
            iout := if itime = next_output_indx then s'.iout + 1 else s'.iout }

/-- The state on entry: caller-supplied buffer, `_last_time = 0.9*times[0]`,
cursor at 0, empty traces. -/
noncomputable def initState (times results : ℕ → ℝ) : IntState :=
  { results := results, lastTime := 0.9 * times 0, iout := 0, writes := [], reads := [] }

/-- The integrator after the first `m` timesteps. -/
noncomputable def runUpTo (c : SFRCoeffs) (nhalos ntimes_out : ℕ)
    (core_mpeak_at_z0 times redshifts : ℕ → ℝ) (output_indices : ℕ → ℕ)
    (results : ℕ → ℝ) (m : ℕ) : IntState :=
  (List.range m).foldl
    (timeStep c nhalos ntimes_out core_mpeak_at_z0 times redshifts output_indices)
    (initState times results)

/-- The full call `mstar_at_multi_zobs(core_mpeak_at_z0, times, redshifts,
output_indices, results, **coeffs)`: all `ntimes` timesteps. -/
noncomputable def mstar_at_multi_zobs (c : SFRCoeffs) (nhalos ntimes ntimes_out : ℕ)
    (core_mpeak_at_z0 times redshifts : ℕ → ℝ) (output_indices : ℕ → ℕ)
    (results : ℕ → ℝ) : IntState :=
  runUpTo c nhalos ntimes_out core_mpeak_at_z0 times redshifts output_indices results ntimes

/-! ## Reference (per-step) quantities

The spec's forward-Euler reference: the SFR model applied to the velocity of
the halo mass at step `i`, and the integration interval of step `i`. -/

/-- Halo mass of halo `ihalo` at step `i` (redshift `redshifts i`). -/
noncomputable def haloMassOfStep (core_mpeak_at_z0 redshifts : ℕ → ℝ) (ihalo i : ℕ) : ℝ :=
  halo_mass_at_z (core_mpeak_at_z0 ihalo) (redshifts i) (1 / (1 + redshifts i))

/-- SFR of halo `ihalo` at step `i`: the SFR model applied to the velocity of
the halo mass evaluated at `redshifts i`. -/
noncomputable def sfrOfStep (c : SFRCoeffs) (core_mpeak_at_z0 redshifts : ℕ → ℝ)
    (ihalo i : ℕ) : ℝ :=
  sfr_at_z c
    (vmax_at_z (haloMassOfStep core_mpeak_at_z0 redshifts ihalo i) (1 / (1 + redshifts i)))
    (1 / (1 + redshifts i)) (redshifts i)

/-- Integration interval of step `i`: `times[0] - 0.9*times[0]` for the first
step (the synthetic pre-start time convention), `times[i] - times[i-1]`
afterwards. -/
noncomputable def dtOfStep (times : ℕ → ℝ) (i : ℕ) : ℝ :=
  if i = 0 then times 0 - 0.9 * times 0 else times i - times (i - 1)

/-- Forward-Euler reference sum: stellar mass of halo `ihalo` accumulated over
the first `m` steps. -/
noncomputable def mstarEuler (c : SFRCoeffs) (core_mpeak_at_z0 times redshifts : ℕ → ℝ)
    (ihalo m : ℕ) : ℝ :=
  ∑ i ∈ Finset.range m, sfrOfStep c core_mpeak_at_z0 redshifts ihalo i * dtOfStep times i

/-- Concatenation of two halo populations (population `A` of size `nA`
followed by population `B`). -/
noncomputable def concatPop (nA : ℕ) (fA fB : ℕ → ℝ) : ℕ → ℝ :=
  fun h => if h < nA then fA h else fB (h - nA)

/-! ## Buffer-index arithmetic

Every index the loop body touches has the form `K * nhalos + h` with
`h < nhalos`; such decompositions are unique. -/

lemma block_decomp_inj {n K1 K2 r1 r2 : ℕ} (h1 : r1 < n) (h2 : r2 < n)
    (e : K1 * n + r1 = K2 * n + r2) : K1 = K2 ∧ r1 = r2 := by
  have hn : 0 < n := Nat.pos_of_ne_zero (by omega)
  have d1 : (K1 * n + r1) / n = K1 := by
    rw [mul_comm, Nat.mul_add_div hn, Nat.div_eq_of_lt h1, add_zero]
  have d2 : (K2 * n + r2) / n = K2 := by
    rw [mul_comm, Nat.mul_add_div hn, Nat.div_eq_of_lt h2, add_zero]
  have hK : K1 = K2 := by rw [← d1, e, d2]
  subst hK
  exact ⟨rfl, by omega⟩

lemma block_ne {n K1 K2 r1 r2 : ℕ} (h1 : r1 < n) (h2 : r2 < n)
    (h : K1 ≠ K2 ∨ r1 ≠ r2) : K1 * n + r1 ≠ K2 * n + r2 := by
  intro e
  rcases block_decomp_inj h1 h2 e with ⟨hK, hr⟩
  tauto

/-! ## Pointwise evaluation of the halo-loop body -/

section HaloBody

variable (c : SFRCoeffs) (n Tout : ℕ) (mp : ℕ → ℝ) (z a dt : ℝ)
  (it nxt i0 : ℕ) (s : IntState)

/-- The SFR value computed by the loop body for halo `h` at per-step values
`z`, `a`. -/
noncomputable def stepSFR (h : ℕ) : ℝ :=
  sfr_at_z c (vmax_at_z (halo_mass_at_z (mp h) z a) a) a z

/-- The halo mass computed by the loop body for halo `h`. -/
noncomputable def stepMhalo (h : ℕ) : ℝ :=
  halo_mass_at_z (mp h) z a

lemma haloBody_iout (h : ℕ) :
    (haloBody c n Tout mp z a dt it nxt i0 s h).iout = s.iout := by
  simp only [haloBody]
  split <;> rfl

lemma haloBody_lastTime (h : ℕ) :
    (haloBody c n Tout mp z a dt it nxt i0 s h).lastTime = s.lastTime := by
  simp only [haloBody]
  split <;> rfl

lemma haloBody_writes (h : ℕ) :
    (haloBody c n Tout mp z a dt it nxt i0 s h).writes =
      s.writes ++ ((Tout - 1) * n * 3 + h) ::
        (if it = nxt then
          [i0 * n * 3 + h, i0 * n * 3 + n + h, i0 * n * 3 + 2 * n + h] else []) := by
  simp only [haloBody]
  split <;> simp

lemma haloBody_reads (h : ℕ) :
    (haloBody c n Tout mp z a dt it nxt i0 s h).reads =
      s.reads ++ ((Tout - 1) * n * 3 + h) ::
        (if it = nxt then [(Tout - 1) * n * 3 + h] else []) := by
  simp only [haloBody]
  split <;> simp

/-- Full pointwise description of the effect of one halo's loop body on the
results buffer.  The if-chain mirrors the order of the stores: halo mass,
SFR, stellar-mass snapshot, stellar-mass accumulation. -/
lemma haloBody_results_apply (h j : ℕ) :
    (haloBody c n Tout mp z a dt it nxt i0 s h).results j =
      if it = nxt ∧ j = i0 * n * 3 + 2 * n + h then stepMhalo mp z a h
      else if it = nxt ∧ j = i0 * n * 3 + n + h then stepSFR c mp z a h
      else if it = nxt ∧ j = i0 * n * 3 + h then
        s.results ((Tout - 1) * n * 3 + h) + stepSFR c mp z a h * dt
      else if j = (Tout - 1) * n * 3 + h then
        s.results ((Tout - 1) * n * 3 + h) + stepSFR c mp z a h * dt
      else s.results j := by
  by_cases hm : it = nxt
  · simp only [haloBody, if_pos hm]
    by_cases jMH : j = i0 * n * 3 + 2 * n + h
    · subst jMH
      rw [if_pos ⟨hm, rfl⟩, Function.update_same]
      rfl
    · rw [if_neg (fun hc => jMH hc.2), Function.update_noteq jMH]
      by_cases jSF : j = i0 * n * 3 + n + h
      · subst jSF
        rw [if_pos ⟨hm, rfl⟩, Function.update_same]
        rfl
      · rw [if_neg (fun hc => jSF hc.2), Function.update_noteq jSF]
        by_cases jMS : j = i0 * n * 3 + h
        · subst jMS
          rw [if_pos ⟨hm, rfl⟩, Function.update_same, Function.update_same]
          rfl
        · rw [if_neg (fun hc => jMS hc.2), Function.update_noteq jMS]
          by_cases jFI : j = (Tout - 1) * n * 3 + h
          · subst jFI
            rw [if_pos rfl, Function.update_same]
            rfl
          · rw [if_neg jFI, Function.update_noteq jFI]
  · simp only [haloBody, if_neg hm]
    rw [if_neg (fun hc => hm hc.1), if_neg (fun hc => hm hc.1), if_neg (fun hc => hm hc.1)]
    by_cases jFI : j = (Tout - 1) * n * 3 + h
    · subst jFI
      rw [if_pos rfl, Function.update_same]
      rfl
    · rw [if_neg jFI, Function.update_noteq jFI]

end HaloBody

/-! ## The inner halo loop -/

/-- Ghost write-trace chunk appended by the halo loop over halos `[0, N)` in
one timestep whose cursor is `i0` and whose pre-read output index is `nxt`. -/
def innerChunk (n Tout i0 it nxt : ℕ) : ℕ → List ℕ
  | 0 => []
  | N + 1 => innerChunk n Tout i0 it nxt N ++
      ((Tout - 1) * n * 3 + N) ::
        (if it = nxt then
          [i0 * n * 3 + N, i0 * n * 3 + n + N, i0 * n * 3 + 2 * n + N] else [])

/-- Ghost read-trace chunk appended by the halo loop over halos `[0, N)`. -/
def innerReads (n Tout it nxt : ℕ) : ℕ → List ℕ
  | 0 => []
  | N + 1 => innerReads n Tout it nxt N ++
      ((Tout - 1) * n * 3 + N) :: (if it = nxt then [(Tout - 1) * n * 3 + N] else [])

section InnerFold

variable (c : SFRCoeffs) (n Tout : ℕ) (mp : ℕ → ℝ) (z a dt : ℝ) (it nxt i0 : ℕ)

/-- The inner `for ihalo in range(N)` fold. -/
noncomputable def innerFold (s : IntState) (N : ℕ) : IntState :=
  (List.range N).foldl (haloBody c n Tout mp z a dt it nxt i0) s

lemma innerFold_zero (s : IntState) : innerFold c n Tout mp z a dt it nxt i0 s 0 = s := rfl

lemma innerFold_succ (s : IntState) (N : ℕ) :
    innerFold c n Tout mp z a dt it nxt i0 s (N + 1) =
      haloBody c n Tout mp z a dt it nxt i0
        (innerFold c n Tout mp z a dt it nxt i0 s N) N := by
  simp [innerFold, List.range_succ]

lemma innerFold_iout (s : IntState) : ∀ N,
    (innerFold c n Tout mp z a dt it nxt i0 s N).iout = s.iout
  | 0 => rfl
  | N + 1 => by
      rw [innerFold_succ, haloBody_iout, innerFold_iout s N]

lemma innerFold_lastTime (s : IntState) : ∀ N,
    (innerFold c n Tout mp z a dt it nxt i0 s N).lastTime = s.lastTime
  | 0 => rfl
  | N + 1 => by
      rw [innerFold_succ, haloBody_lastTime, innerFold_lastTime s N]

lemma innerFold_writes (s : IntState) : ∀ N,
    (innerFold c n Tout mp z a dt it nxt i0 s N).writes =
      s.writes ++ innerChunk n Tout i0 it nxt N
  | 0 => by simp [innerFold_zero, innerChunk]
  | N + 1 => by
      rw [innerFold_succ, haloBody_writes, innerFold_writes s N, innerChunk,
        List.append_assoc]

lemma innerFold_reads (s : IntState) : ∀ N,
    (innerFold c n Tout mp z a dt it nxt i0 s N).reads =
      s.reads ++ innerReads n Tout it nxt N
  | 0 => by simp [innerFold_zero, innerReads]
  | N + 1 => by
      rw [innerFold_succ, haloBody_reads, innerFold_reads s N, innerReads,
        List.append_assoc]

/-- Buffer positions touched by none of the halos `[0, N)` are untouched. -/
lemma innerFold_results_untouched (s : IntState) : ∀ N, ∀ j : ℕ,
    (∀ h, h < N → j ≠ (Tout - 1) * n * 3 + h) →
    (it = nxt → ∀ h, h < N →
      j ≠ i0 * n * 3 + h ∧ j ≠ i0 * n * 3 + n + h ∧ j ≠ i0 * n * 3 + 2 * n + h) →
    (innerFold c n Tout mp z a dt it nxt i0 s N).results j = s.results j
  | 0, _, _, _ => rfl
  | N + 1, j, hFI, hSnap => by
      rw [innerFold_succ, haloBody_results_apply,
        if_neg (fun hc => (hSnap hc.1 N (Nat.lt_succ_self N)).2.2 hc.2),
        if_neg (fun hc => (hSnap hc.1 N (Nat.lt_succ_self N)).2.1 hc.2),
        if_neg (fun hc => (hSnap hc.1 N (Nat.lt_succ_self N)).1 hc.2),
        if_neg (hFI N (Nat.lt_succ_self N))]
      exact innerFold_results_untouched s N j (fun h hh => hFI h (by omega))
        (fun hm h hh => hSnap hm h (by omega))

/-- The accumulator slot of a halo `h < n` is untouched by the bodies of the
halos `[0, N)` other than `h` itself. -/
lemma innerFold_acc_slot_untouched (s : IntState) (N h : ℕ) (hN : N ≤ n) (hh : h < n)
    (hout : ∀ h', h' < N → h' ≠ h) :
    (innerFold c n Tout mp z a dt it nxt i0 s N).results ((Tout - 1) * n * 3 + h) =
      s.results ((Tout - 1) * n * 3 + h) := by
  have eFI : ∀ x : ℕ, (Tout - 1) * n * 3 + x = 3 * (Tout - 1) * n + x := fun x => by ring
  have eMS : ∀ x : ℕ, i0 * n * 3 + x = 3 * i0 * n + x := fun x => by ring
  have eSF : ∀ x : ℕ, i0 * n * 3 + n + x = (3 * i0 + 1) * n + x := fun x => by ring
  have eMH : ∀ x : ℕ, i0 * n * 3 + 2 * n + x = (3 * i0 + 2) * n + x := fun x => by ring
  refine innerFold_results_untouched c n Tout mp z a dt it nxt i0 s N _ ?_ ?_
  · intro h' hh'
    rw [eFI h, eFI h']
    exact block_ne hh (by omega) (Or.inr (fun e => hout h' hh' e.symm))
  · intro _ h' hh'
    have hne : h ≠ h' := fun e => hout h' hh' e.symm
    exact ⟨by rw [eFI h, eMS h']; exact block_ne hh (by omega) (Or.inr hne),
           by rw [eFI h, eSF h']; exact block_ne hh (by omega) (Or.inr hne),
           by rw [eFI h, eMH h']; exact block_ne hh (by omega) (Or.inr hne)⟩

/-- The accumulator slot of each halo `h < N` gains exactly `sfr*dt`. -/
lemma innerFold_results_acc (s : IntState) : ∀ N, N ≤ n → ∀ h, h < N →
    (innerFold c n Tout mp z a dt it nxt i0 s N).results ((Tout - 1) * n * 3 + h) =
      s.results ((Tout - 1) * n * 3 + h) + stepSFR c mp z a h * dt
  | 0, _, h, hh => absurd hh (Nat.not_lt_zero h)
  | N + 1, hN, h, hh => by
      have eFI : ∀ x : ℕ, (Tout - 1) * n * 3 + x = 3 * (Tout - 1) * n + x := fun x => by ring
      have eMS : ∀ x : ℕ, i0 * n * 3 + x = 3 * i0 * n + x := fun x => by ring
      have eSF : ∀ x : ℕ, i0 * n * 3 + n + x = (3 * i0 + 1) * n + x := fun x => by ring
      have eMH : ∀ x : ℕ, i0 * n * 3 + 2 * n + x = (3 * i0 + 2) * n + x := fun x => by ring
      have hhn : h < n := by omega
      have hNn : N < n := by omega
      rw [innerFold_succ]
      by_cases hhN : h = N
      · have hUnt := innerFold_acc_slot_untouched c n Tout mp z a dt it nxt i0 s N h (by omega) hhn
          (fun h' hh' => by omega)
        have ne1 : (Tout - 1) * n * 3 + h ≠ i0 * n * 3 + 2 * n + N := by
          rw [eFI h, eMH N]; exact block_ne hhn hNn (Or.inl (by omega))
        have ne2 : (Tout - 1) * n * 3 + h ≠ i0 * n * 3 + n + N := by
          rw [eFI h, eSF N]; exact block_ne hhn hNn (Or.inl (by omega))
        subst hhN
        rw [haloBody_results_apply, if_neg (fun hc => ne1 hc.2), if_neg (fun hc => ne2 hc.2)]
        by_cases c3 : it = nxt ∧ (Tout - 1) * n * 3 + h = i0 * n * 3 + h
        · rw [if_pos c3, hUnt]
        · rw [if_neg c3, if_pos rfl, hUnt]
      · have ne1 : (Tout - 1) * n * 3 + h ≠ i0 * n * 3 + 2 * n + N := by
          rw [eFI h, eMH N]; exact block_ne hhn hNn (Or.inr hhN)
        have ne2 : (Tout - 1) * n * 3 + h ≠ i0 * n * 3 + n + N := by
          rw [eFI h, eSF N]; exact block_ne hhn hNn (Or.inr hhN)
        have ne3 : (Tout - 1) * n * 3 + h ≠ i0 * n * 3 + N := by
          rw [eFI h, eMS N]; exact block_ne hhn hNn (Or.inr hhN)
        have ne4 : (Tout - 1) * n * 3 + h ≠ (Tout - 1) * n * 3 + N := by
          rw [eFI h, eFI N]; exact block_ne hhn hNn (Or.inr hhN)
        rw [haloBody_results_apply, if_neg (fun hc => ne1 hc.2), if_neg (fun hc => ne2 hc.2),
          if_neg (fun hc => ne3 hc.2), if_neg ne4]
        exact innerFold_results_acc s N (by omega) h (by omega)

/-- On a snapshot timestep, the three snapshot slots of each halo `h < N`. -/
lemma innerFold_results_snap (s : IntState) (hm : it = nxt) : ∀ N, N ≤ n → ∀ h, h < N →
    (innerFold c n Tout mp z a dt it nxt i0 s N).results (i0 * n * 3 + n + h) =
        stepSFR c mp z a h ∧
    (innerFold c n Tout mp z a dt it nxt i0 s N).results (i0 * n * 3 + 2 * n + h) =
        stepMhalo mp z a h ∧
    (i0 ≠ Tout - 1 →
      (innerFold c n Tout mp z a dt it nxt i0 s N).results (i0 * n * 3 + h) =
        s.results ((Tout - 1) * n * 3 + h) + stepSFR c mp z a h * dt)
  | 0, _, h, hh => absurd hh (Nat.not_lt_zero h)
  | N + 1, hN, h, hh => by
      have eFI : ∀ x : ℕ, (Tout - 1) * n * 3 + x = 3 * (Tout - 1) * n + x := fun x => by ring
      have eMS : ∀ x : ℕ, i0 * n * 3 + x = 3 * i0 * n + x := fun x => by ring
      have eSF : ∀ x : ℕ, i0 * n * 3 + n + x = (3 * i0 + 1) * n + x := fun x => by ring
      have eMH : ∀ x : ℕ, i0 * n * 3 + 2 * n + x = (3 * i0 + 2) * n + x := fun x => by ring
      have hhn : h < n := by omega
      have hNn : N < n := by omega
      rw [innerFold_succ]
      by_cases hhN : h = N
      · have hUnt := innerFold_acc_slot_untouched c n Tout mp z a dt it nxt i0 s N h (by omega) hhn
          (fun h' hh' => by omega)
        have neSFMH : i0 * n * 3 + n + h ≠ i0 * n * 3 + 2 * n + N := by
          rw [eSF h, eMH N]; exact block_ne hhn hNn (Or.inl (by omega))
        have neMSMH : i0 * n * 3 + h ≠ i0 * n * 3 + 2 * n + N := by
          rw [eMS h, eMH N]; exact block_ne hhn hNn (Or.inl (by omega))
        have neMSSF : i0 * n * 3 + h ≠ i0 * n * 3 + n + N := by
          rw [eMS h, eSF N]; exact block_ne hhn hNn (Or.inl (by omega))
        subst hhN
        refine ⟨?_, ?_, ?_⟩
        · rw [haloBody_results_apply, if_neg (fun hc => neSFMH hc.2), if_pos ⟨hm, rfl⟩]
        · rw [haloBody_results_apply, if_pos ⟨hm, rfl⟩]
        · intro hi0
          rw [haloBody_results_apply, if_neg (fun hc => neMSMH hc.2),
            if_neg (fun hc => neMSSF hc.2), if_pos ⟨hm, rfl⟩, hUnt]
      · have IH := innerFold_results_snap s hm N (by omega) h (by omega)
        refine ⟨?_, ?_, ?_⟩
        · have ne1 : i0 * n * 3 + n + h ≠ i0 * n * 3 + 2 * n + N := by
            rw [eSF h, eMH N]; exact block_ne hhn hNn (Or.inl (by omega))
          have ne2 : i0 * n * 3 + n + h ≠ i0 * n * 3 + n + N := by
            rw [eSF h, eSF N]; exact block_ne hhn hNn (Or.inr hhN)
          have ne3 : i0 * n * 3 + n + h ≠ i0 * n * 3 + N := by
            rw [eSF h, eMS N]; exact block_ne hhn hNn (Or.inl (by omega))
          have ne4 : i0 * n * 3 + n + h ≠ (Tout - 1) * n * 3 + N := by
            rw [eSF h, eFI N]; exact block_ne hhn hNn (Or.inl (by omega))
          rw [haloBody_results_apply, if_neg (fun hc => ne1 hc.2), if_neg (fun hc => ne2 hc.2),
            if_neg (fun hc => ne3 hc.2), if_neg ne4]
          exact IH.1
        · have ne1 : i0 * n * 3 + 2 * n + h ≠ i0 * n * 3 + 2 * n + N := by
            rw [eMH h, eMH N]; exact block_ne hhn hNn (Or.inr hhN)
          have ne2 : i0 * n * 3 + 2 * n + h ≠ i0 * n * 3 + n + N := by
            rw [eMH h, eSF N]; exact block_ne hhn hNn (Or.inl (by omega))
          have ne3 : i0 * n * 3 + 2 * n + h ≠ i0 * n * 3 + N := by
            rw [eMH h, eMS N]; exact block_ne hhn hNn (Or.inl (by omega))
          have ne4 : i0 * n * 3 + 2 * n + h ≠ (Tout - 1) * n * 3 + N := by
            rw [eMH h, eFI N]; exact block_ne hhn hNn (Or.inl (by omega))
          rw [haloBody_results_apply, if_neg (fun hc => ne1 hc.2), if_neg (fun hc => ne2 hc.2),
            if_neg (fun hc => ne3 hc.2), if_neg ne4]
          exact IH.2.1
        · intro hi0
          have ne1 : i0 * n * 3 + h ≠ i0 * n * 3 + 2 * n + N := by
            rw [eMS h, eMH N]; exact block_ne hhn hNn (Or.inl (by omega))
          have ne2 : i0 * n * 3 + h ≠ i0 * n * 3 + n + N := by
            rw [eMS h, eSF N]; exact block_ne hhn hNn (Or.inl (by omega))
          have ne3 : i0 * n * 3 + h ≠ i0 * n * 3 + N := by
            rw [eMS h, eMS N]; exact block_ne hhn hNn (Or.inr hhN)
          have ne4 : i0 * n * 3 + h ≠ (Tout - 1) * n * 3 + N := by
            rw [eMS h, eFI N]; exact block_ne hhn hNn (Or.inl (by omega))
          rw [haloBody_results_apply, if_neg (fun hc => ne1 hc.2), if_neg (fun hc => ne2 hc.2),
            if_neg (fun hc => ne3 hc.2), if_neg ne4]
          exact IH.2.2 hi0

end InnerFold

/-! ## Counting ghost-trace entries -/

lemma count_entry (n Tout i0 it nxt N j : ℕ) :
    (((Tout - 1) * n * 3 + N) :: (if it = nxt then
        [i0 * n * 3 + N, i0 * n * 3 + n + N, i0 * n * 3 + 2 * n + N] else [])).count j =
      (if (Tout - 1) * n * 3 + N = j then 1 else 0) +
      (if it = nxt then
        (if i0 * n * 3 + N = j then 1 else 0) + (if i0 * n * 3 + n + N = j then 1 else 0) +
        (if i0 * n * 3 + 2 * n + N = j then 1 else 0) else 0) := by
  by_cases hm : it = nxt
  · simp only [if_pos hm, List.count_cons, List.count_nil, beq_iff_eq]
    ring
  · simp only [if_neg hm, List.count_cons, List.count_nil, beq_iff_eq]
    ring

/-- Occurrences of an accumulator slot in one timestep's write chunk. -/
lemma innerChunk_count_acc (n Tout i0 it nxt h : ℕ) (hh : h < n) : ∀ N, N ≤ n →
    (innerChunk n Tout i0 it nxt N).count ((Tout - 1) * n * 3 + h) =
      if h < N then 1 + (if it = nxt ∧ i0 = Tout - 1 then 1 else 0) else 0
  | 0, _ => by simp [innerChunk]
  | N + 1, hN => by
      have eFI : ∀ x : ℕ, (Tout - 1) * n * 3 + x = 3 * (Tout - 1) * n + x := fun x => by ring
      have eMS : ∀ x : ℕ, i0 * n * 3 + x = 3 * i0 * n + x := fun x => by ring
      have eSF : ∀ x : ℕ, i0 * n * 3 + n + x = (3 * i0 + 1) * n + x := fun x => by ring
      have eMH : ∀ x : ℕ, i0 * n * 3 + 2 * n + x = (3 * i0 + 2) * n + x := fun x => by ring
      have hNn : N < n := by omega
      rw [innerChunk, List.count_append,
        innerChunk_count_acc n Tout i0 it nxt h hh N (by omega), count_entry]
      have hSF : i0 * n * 3 + n + N ≠ (Tout - 1) * n * 3 + h := by
        rw [eSF N, eFI h]; exact block_ne hNn hh (Or.inl (by omega))
      have hMH : i0 * n * 3 + 2 * n + N ≠ (Tout - 1) * n * 3 + h := by
        rw [eMH N, eFI h]; exact block_ne hNn hh (Or.inl (by omega))
      rw [if_neg hSF, if_neg hMH]
      by_cases hhN : h = N
      · subst hhN
        rw [if_pos rfl]
        by_cases hi0 : i0 = Tout - 1
        · rw [if_pos (show i0 * n * 3 + h = (Tout - 1) * n * 3 + h by rw [hi0])]
          split_ifs <;> omega
        · rw [if_neg (show i0 * n * 3 + h ≠ (Tout - 1) * n * 3 + h by
            rw [eMS h, eFI h]; exact block_ne hh hh (Or.inl (by omega)))]
          split_ifs <;> omega
      · have hFI : (Tout - 1) * n * 3 + N ≠ (Tout - 1) * n * 3 + h := by
          rw [eFI N, eFI h]; exact block_ne hNn hh (Or.inr (fun e => hhN e.symm))
        have hMS : i0 * n * 3 + N ≠ (Tout - 1) * n * 3 + h := by
          rw [eMS N, eFI h]; exact block_ne hNn hh (Or.inr (fun e => hhN e.symm))
        rw [if_neg hFI, if_neg hMS]
        split_ifs <;> omega

/-- Occurrences of a non-final stellar-mass snapshot slot in one timestep's
write chunk. -/
lemma innerChunk_count_ms (n Tout i0 it nxt h k : ℕ) (hh : h < n) (hk : k < Tout)
    (hkne : k ≠ Tout - 1) : ∀ N, N ≤ n →
    (innerChunk n Tout i0 it nxt N).count (k * n * 3 + h) =
      if it = nxt ∧ i0 = k ∧ h < N then 1 else 0
  | 0, _ => by
      simp only [innerChunk, List.count_nil]
      rw [if_neg (by omega)]
  | N + 1, hN => by
      have eFI : ∀ x : ℕ, (Tout - 1) * n * 3 + x = 3 * (Tout - 1) * n + x := fun x => by ring
      have eMS : ∀ x : ℕ, i0 * n * 3 + x = 3 * i0 * n + x := fun x => by ring
      have eSF : ∀ x : ℕ, i0 * n * 3 + n + x = (3 * i0 + 1) * n + x := fun x => by ring
      have eMH : ∀ x : ℕ, i0 * n * 3 + 2 * n + x = (3 * i0 + 2) * n + x := fun x => by ring
      have eK : ∀ x : ℕ, k * n * 3 + x = 3 * k * n + x := fun x => by ring
      have hNn : N < n := by omega
      rw [innerChunk, List.count_append,
        innerChunk_count_ms n Tout i0 it nxt h k hh hk hkne N (by omega), count_entry]
      have hFI : (Tout - 1) * n * 3 + N ≠ k * n * 3 + h := by
        rw [eFI N, eK h]; exact block_ne hNn hh (Or.inl (by omega))
      have hSF : i0 * n * 3 + n + N ≠ k * n * 3 + h := by
        rw [eSF N, eK h]; exact block_ne hNn hh (Or.inl (by omega))
      have hMH : i0 * n * 3 + 2 * n + N ≠ k * n * 3 + h := by
        rw [eMH N, eK h]; exact block_ne hNn hh (Or.inl (by omega))
      rw [if_neg hFI, if_neg hSF, if_neg hMH]
      by_cases hhN : h = N
      · subst hhN
        by_cases hik : i0 = k
        · rw [if_pos (show i0 * n * 3 + h = k * n * 3 + h by rw [hik])]
          split_ifs <;> omega
        · rw [if_neg (show i0 * n * 3 + h ≠ k * n * 3 + h by
            rw [eMS h, eK h]; exact block_ne hh hh (Or.inl (by omega)))]
          split_ifs <;> omega
      · rw [if_neg (show i0 * n * 3 + N ≠ k * n * 3 + h by
          rw [eMS N, eK h]; exact block_ne hNn hh (Or.inr (fun e => hhN e.symm)))]
        split_ifs <;> omega

/-- Occurrences of an SFR snapshot slot in one timestep's write chunk. -/
lemma innerChunk_count_sf (n Tout i0 it nxt h k : ℕ) (hh : h < n) (hk : k < Tout) :
    ∀ N, N ≤ n →
    (innerChunk n Tout i0 it nxt N).count (k * n * 3 + n + h) =
      if it = nxt ∧ i0 = k ∧ h < N then 1 else 0
  | 0, _ => by
      simp only [innerChunk, List.count_nil]
      rw [if_neg (by omega)]
  | N + 1, hN => by
      have eFI : ∀ x : ℕ, (Tout - 1) * n * 3 + x = 3 * (Tout - 1) * n + x := fun x => by ring
      have eMS : ∀ x : ℕ, i0 * n * 3 + x = 3 * i0 * n + x := fun x => by ring
      have eSF : ∀ x : ℕ, i0 * n * 3 + n + x = (3 * i0 + 1) * n + x := fun x => by ring
      have eMH : ∀ x : ℕ, i0 * n * 3 + 2 * n + x = (3 * i0 + 2) * n + x := fun x => by ring
      have eK : ∀ x : ℕ, k * n * 3 + n + x = (3 * k + 1) * n + x := fun x => by ring
      have hNn : N < n := by omega
      rw [innerChunk, List.count_append,
        innerChunk_count_sf n Tout i0 it nxt h k hh hk N (by omega), count_entry]
      have hFI : (Tout - 1) * n * 3 + N ≠ k * n * 3 + n + h := by
        rw [eFI N, eK h]; exact block_ne hNn hh (Or.inl (by omega))
      have hMS : i0 * n * 3 + N ≠ k * n * 3 + n + h := by
        rw [eMS N, eK h]; exact block_ne hNn hh (Or.inl (by omega))
      have hMH : i0 * n * 3 + 2 * n + N ≠ k * n * 3 + n + h := by
        rw [eMH N, eK h]; exact block_ne hNn hh (Or.inl (by omega))
      rw [if_neg hFI, if_neg hMS, if_neg hMH]
      by_cases hhN : h = N
      · subst hhN
        by_cases hik : i0 = k
        · rw [if_pos (show i0 * n * 3 + n + h = k * n * 3 + n + h by rw [hik])]
          split_ifs <;> omega
        · rw [if_neg (show i0 * n * 3 + n + h ≠ k * n * 3 + n + h by
            rw [eSF h, eK h]; exact block_ne hh hh (Or.inl (by omega)))]
          split_ifs <;> omega
      · rw [if_neg (show i0 * n * 3 + n + N ≠ k * n * 3 + n + h by
          rw [eSF N, eK h]; exact block_ne hNn hh (Or.inr (fun e => hhN e.symm)))]
        split_ifs <;> omega

/-- Occurrences of a halo-mass snapshot slot in one timestep's write chunk. -/
lemma innerChunk_count_mh (n Tout i0 it nxt h k : ℕ) (hh : h < n) (hk : k < Tout) :
    ∀ N, N ≤ n →
    (innerChunk n Tout i0 it nxt N).count (k * n * 3 + 2 * n + h) =
      if it = nxt ∧ i0 = k ∧ h < N then 1 else 0
  | 0, _ => by
      simp only [innerChunk, List.count_nil]
      rw [if_neg (by omega)]
  | N + 1, hN => by
      have eFI : ∀ x : ℕ, (Tout - 1) * n * 3 + x = 3 * (Tout - 1) * n + x := fun x => by ring
      have eMS : ∀ x : ℕ, i0 * n * 3 + x = 3 * i0 * n + x := fun x => by ring
      have eSF : ∀ x : ℕ, i0 * n * 3 + n + x = (3 * i0 + 1) * n + x := fun x => by ring
      have eMH : ∀ x : ℕ, i0 * n * 3 + 2 * n + x = (3 * i0 + 2) * n + x := fun x => by ring
      have eK : ∀ x : ℕ, k * n * 3 + 2 * n + x = (3 * k + 2) * n + x := fun x => by ring
      have hNn : N < n := by omega
      rw [innerChunk, List.count_append,
        innerChunk_count_mh n Tout i0 it nxt h k hh hk N (by omega), count_entry]
      have hFI : (Tout - 1) * n * 3 + N ≠ k * n * 3 + 2 * n + h := by
        rw [eFI N, eK h]; exact block_ne hNn hh (Or.inl (by omega))
      have hMS : i0 * n * 3 + N ≠ k * n * 3 + 2 * n + h := by
        rw [eMS N, eK h]; exact block_ne hNn hh (Or.inl (by omega))
      have hSF : i0 * n * 3 + n + N ≠ k * n * 3 + 2 * n + h := by
        rw [eSF N, eK h]; exact block_ne hNn hh (Or.inl (by omega))
      rw [if_neg hFI, if_neg hMS, if_neg hSF]
      by_cases hhN : h = N
      · subst hhN
        by_cases hik : i0 = k
        · rw [if_pos (show i0 * n * 3 + 2 * n + h = k * n * 3 + 2 * n + h by rw [hik])]
          split_ifs <;> omega
        · rw [if_neg (show i0 * n * 3 + 2 * n + h ≠ k * n * 3 + 2 * n + h by
            rw [eMH h, eK h]; exact block_ne hh hh (Or.inl (by omega)))]
          split_ifs <;> omega
      · rw [if_neg (show i0 * n * 3 + 2 * n + N ≠ k * n * 3 + 2 * n + h by
          rw [eMH N, eK h]; exact block_ne hNn hh (Or.inr (fun e => hhN e.symm)))]
        split_ifs <;> omega

/-- Every entry of a timestep's read chunk is an accumulator slot. -/
lemma innerReads_mem (n Tout it nxt : ℕ) : ∀ N, ∀ j, j ∈ innerReads n Tout it nxt N →
    ∃ h, h < N ∧ j = (Tout - 1) * n * 3 + h
  | 0, j, hj => by simp [innerReads] at hj
  | N + 1, j, hj => by
      rw [innerReads] at hj
      rcases List.mem_append.mp hj with hj | hj
      · obtain ⟨h, hh, e⟩ := innerReads_mem n Tout it nxt N j hj
        exact ⟨h, by omega, e⟩
      · rcases List.mem_cons.mp hj with e | hj
        · exact ⟨N, by omega, e⟩
        · by_cases hm : it = nxt
          · rw [if_pos hm] at hj
            exact ⟨N, by omega, List.mem_singleton.mp hj⟩
          · rw [if_neg hm] at hj
            exact absurd hj (List.not_mem_nil j)

/-! ## The outer time loop and its master invariant -/

section Master

variable (c : SFRCoeffs) (n Tout : ℕ) (mp ts zs : ℕ → ℝ) (oi : ℕ → ℕ) (res0 : ℕ → ℝ)

lemma runUpTo_succ (m : ℕ) :
    runUpTo c n Tout mp ts zs oi res0 (m + 1) =
      timeStep c n Tout mp ts zs oi (runUpTo c n Tout mp ts zs oi res0 m) m := by
  simp [runUpTo, List.range_succ]

lemma timeStep_results (s : IntState) (m j : ℕ) :
    (timeStep c n Tout mp ts zs oi s m).results j =
      (innerFold c n Tout mp (zs m) (1 / (1 + zs m)) (ts m - s.lastTime) m (oi s.iout)
        s.iout s n).results j := rfl

lemma timeStep_lastTime (s : IntState) (m : ℕ) :
    (timeStep c n Tout mp ts zs oi s m).lastTime = ts m := rfl

lemma timeStep_iout (s : IntState) (m : ℕ) :
    (timeStep c n Tout mp ts zs oi s m).iout =
      if m = oi s.iout then s.iout + 1 else s.iout := by
  have h0 : (timeStep c n Tout mp ts zs oi s m).iout =
      if m = oi s.iout then
        (innerFold c n Tout mp (zs m) (1 / (1 + zs m)) (ts m - s.lastTime) m (oi s.iout)
          s.iout s n).iout + 1
      else
        (innerFold c n Tout mp (zs m) (1 / (1 + zs m)) (ts m - s.lastTime) m (oi s.iout)
          s.iout s n).iout := rfl
  rw [h0, innerFold_iout]

lemma timeStep_writes (s : IntState) (m : ℕ) :
    (timeStep c n Tout mp ts zs oi s m).writes =
      s.writes ++ innerChunk n Tout s.iout m (oi s.iout) n := by
  have h0 : (timeStep c n Tout mp ts zs oi s m).writes =
      (innerFold c n Tout mp (zs m) (1 / (1 + zs m)) (ts m - s.lastTime) m (oi s.iout)
        s.iout s n).writes := rfl
  rw [h0, innerFold_writes]

lemma timeStep_reads (s : IntState) (m : ℕ) :
    (timeStep c n Tout mp ts zs oi s m).reads =
      s.reads ++ innerReads n Tout m (oi s.iout) n := by
  have h0 : (timeStep c n Tout mp ts zs oi s m).reads =
      (innerFold c n Tout mp (zs m) (1 / (1 + zs m)) (ts m - s.lastTime) m (oi s.iout)
        s.iout s n).reads := rfl
  rw [h0, innerFold_reads]

/-- The per-step quantities computed by the loop body agree with the
reference per-step quantities. -/
lemma stepSFR_eq (h m : ℕ) :
    stepSFR c mp (zs m) (1 / (1 + zs m)) h = sfrOfStep c mp zs h m := rfl

lemma stepMhalo_eq (h m : ℕ) :
    stepMhalo mp (zs m) (1 / (1 + zs m)) h = haloMassOfStep mp zs h m := rfl

lemma dtOfStep_eq (m : ℕ) :
    ts m - (if m = 0 then 0.9 * ts 0 else ts (m - 1)) = dtOfStep ts m := by
  by_cases hm0 : m = 0 <;> simp [dtOfStep, hm0]

lemma mstarEuler_succ (h m : ℕ) :
    mstarEuler c mp ts zs h (m + 1) =
      mstarEuler c mp ts zs h m + sfrOfStep c mp zs h m * dtOfStep ts m :=
  Finset.sum_range_succ _ m

/-- Loop invariant of the outer time loop after `m` steps: cursor behaviour,
buffer contents, ghost write counts and ghost read positions. -/
structure MasterInv (m : ℕ) (S : IntState) : Prop where
  lastTime_eq : S.lastTime = if m = 0 then 0.9 * ts 0 else ts (m - 1)
  consumed_lt : ∀ k, k < S.iout → k < Tout → oi k < m
  cursor_ge : Tout ≤ S.iout ∨ m ≤ oi S.iout
  acc_eq : ∀ h, h < n → S.results ((Tout - 1) * n * 3 + h) =
      res0 ((Tout - 1) * n * 3 + h) + mstarEuler c mp ts zs h m
  mstar_eq : ∀ h, h < n → ∀ k, k < S.iout → k < Tout → k ≠ Tout - 1 →
      S.results (k * n * 3 + h) =
        res0 ((Tout - 1) * n * 3 + h) + mstarEuler c mp ts zs h (oi k + 1)
  sfr_eq : ∀ h, h < n → ∀ k, k < S.iout → k < Tout →
      S.results (k * n * 3 + n + h) = sfrOfStep c mp zs h (oi k)
  mhalo_eq : ∀ h, h < n → ∀ k, k < S.iout → k < Tout →
      S.results (k * n * 3 + 2 * n + h) = haloMassOfStep mp zs h (oi k)
  acc_wcount : ∀ h, h < n → S.writes.count ((Tout - 1) * n * 3 + h) =
      m + (if Tout ≤ S.iout then 1 else 0)
  mstar_wcount : ∀ h, h < n → ∀ k, k < Tout → k ≠ Tout - 1 →
      S.writes.count (k * n * 3 + h) = if k < S.iout then 1 else 0
  sfr_wcount : ∀ h, h < n → ∀ k, k < Tout →
      S.writes.count (k * n * 3 + n + h) = if k < S.iout then 1 else 0
  mhalo_wcount : ∀ h, h < n → ∀ k, k < Tout →
      S.writes.count (k * n * 3 + 2 * n + h) = if k < S.iout then 1 else 0
  reads_acc : ∀ j, j ∈ S.reads → ∃ h, h < n ∧ j = (Tout - 1) * n * 3 + h

lemma masterInv_init (hTout : 0 < Tout) :
    MasterInv c n Tout mp ts zs oi res0 0 (initState ts res0) := by
  refine ⟨?_, ?_, ?_, ?_, ?_, ?_, ?_, ?_, ?_, ?_, ?_, ?_⟩
  · simp [initState]
  · intro k hk _
    exact absurd hk (by simp [initState])
  · exact Or.inr (Nat.zero_le _)
  · intro h _
    simp [initState, mstarEuler]
  · intro h _ k hk
    exact absurd hk (by simp [initState])
  · intro h _ k hk
    exact absurd hk (by simp [initState])
  · intro h _ k hk
    exact absurd hk (by simp [initState])
  · intro h _
    have h1 : (initState ts res0).writes = [] := rfl
    have h2 : (initState ts res0).iout = 0 := rfl
    rw [h1, h2, List.count_nil, if_neg (by omega)]
  · intro h _ k _ _
    have : (initState ts res0).writes = [] := rfl
    rw [this, List.count_nil, if_neg (by simp [initState])]
  · intro h _ k _
    have : (initState ts res0).writes = [] := rfl
    rw [this, List.count_nil, if_neg (by simp [initState])]
  · intro h _ k _
    have : (initState ts res0).writes = [] := rfl
    rw [this, List.count_nil, if_neg (by simp [initState])]
  · intro j hj
    exact absurd hj (by simp [initState])

lemma masterInv_step (hTout : 0 < Tout)
    (hmono : ∀ k1 k2, k1 < k2 → k2 < Tout → oi k1 < oi k2)
    (m : ℕ) (S : IntState) (H : MasterInv c n Tout mp ts zs oi res0 m S) :
    MasterInv c n Tout mp ts zs oi res0 (m + 1) (timeStep c n Tout mp ts zs oi S m) := by
  have hdt : ts m - S.lastTime = dtOfStep ts m := by
    rw [H.lastTime_eq]
    exact dtOfStep_eq ts m
  -- untouched-slot helpers for blocks strictly before the cursor
  have hUnMS : ∀ h k, h < n → k < Tout → k ≠ Tout - 1 → k ≠ S.iout →
      (innerFold c n Tout mp (zs m) (1 / (1 + zs m)) (ts m - S.lastTime) m (oi S.iout)
        S.iout S n).results (k * n * 3 + h) = S.results (k * n * 3 + h) := by
    intro h k hh hk hkT hki
    refine innerFold_results_untouched c n Tout mp (zs m) (1 / (1 + zs m))
      (ts m - S.lastTime) m (oi S.iout) S.iout S n _ ?_ ?_
    · intro h' hh'
      have e1 : k * n * 3 + h = 3 * k * n + h := by ring
      have e2 : (Tout - 1) * n * 3 + h' = 3 * (Tout - 1) * n + h' := by ring
      rw [e1, e2]
      exact block_ne hh (by omega) (Or.inl (by omega))
    · intro _ h' hh'
      refine ⟨?_, ?_, ?_⟩
      · have e1 : k * n * 3 + h = 3 * k * n + h := by ring
        have e2 : S.iout * n * 3 + h' = 3 * S.iout * n + h' := by ring
        rw [e1, e2]
        exact block_ne hh (by omega) (Or.inl (by omega))
      · have e1 : k * n * 3 + h = 3 * k * n + h := by ring
        have e2 : S.iout * n * 3 + n + h' = (3 * S.iout + 1) * n + h' := by ring
        rw [e1, e2]
        exact block_ne hh (by omega) (Or.inl (by omega))
      · have e1 : k * n * 3 + h = 3 * k * n + h := by ring
        have e2 : S.iout * n * 3 + 2 * n + h' = (3 * S.iout + 2) * n + h' := by ring
        rw [e1, e2]
        exact block_ne hh (by omega) (Or.inl (by omega))
  have hUnSF : ∀ h k, h < n → k < Tout → k ≠ S.iout →
      (innerFold c n Tout mp (zs m) (1 / (1 + zs m)) (ts m - S.lastTime) m (oi S.iout)
        S.iout S n).results (k * n * 3 + n + h) = S.results (k * n * 3 + n + h) := by
    intro h k hh hk hki
    refine innerFold_results_untouched c n Tout mp (zs m) (1 / (1 + zs m))
      (ts m - S.lastTime) m (oi S.iout) S.iout S n _ ?_ ?_
    · intro h' hh'
      have e1 : k * n * 3 + n + h = (3 * k + 1) * n + h := by ring
      have e2 : (Tout - 1) * n * 3 + h' = 3 * (Tout - 1) * n + h' := by ring
      rw [e1, e2]
      exact block_ne hh (by omega) (Or.inl (by omega))
    · intro _ h' hh'
      refine ⟨?_, ?_, ?_⟩
      · have e1 : k * n * 3 + n + h = (3 * k + 1) * n + h := by ring
        have e2 : S.iout * n * 3 + h' = 3 * S.iout * n + h' := by ring
        rw [e1, e2]
        exact block_ne hh (by omega) (Or.inl (by omega))
      · have e1 : k * n * 3 + n + h = (3 * k + 1) * n + h := by ring
        have e2 : S.iout * n * 3 + n + h' = (3 * S.iout + 1) * n + h' := by ring
        rw [e1, e2]
        exact block_ne hh (by omega) (Or.inl (by omega))
      · have e1 : k * n * 3 + n + h = (3 * k + 1) * n + h := by ring
        have e2 : S.iout * n * 3 + 2 * n + h' = (3 * S.iout + 2) * n + h' := by ring
        rw [e1, e2]
        exact block_ne hh (by omega) (Or.inl (by omega))
  have hUnMH : ∀ h k, h < n → k < Tout → k ≠ S.iout →
      (innerFold c n Tout mp (zs m) (1 / (1 + zs m)) (ts m - S.lastTime) m (oi S.iout)
        S.iout S n).results (k * n * 3 + 2 * n + h) = S.results (k * n * 3 + 2 * n + h) := by
    intro h k hh hk hki
    refine innerFold_results_untouched c n Tout mp (zs m) (1 / (1 + zs m))
      (ts m - S.lastTime) m (oi S.iout) S.iout S n _ ?_ ?_
    · intro h' hh'
      have e1 : k * n * 3 + 2 * n + h = (3 * k + 2) * n + h := by ring
      have e2 : (Tout - 1) * n * 3 + h' = 3 * (Tout - 1) * n + h' := by ring
      rw [e1, e2]
      exact block_ne hh (by omega) (Or.inl (by omega))
    · intro _ h' hh'
      refine ⟨?_, ?_, ?_⟩
      · have e1 : k * n * 3 + 2 * n + h = (3 * k + 2) * n + h := by ring
        have e2 : S.iout * n * 3 + h' = 3 * S.iout * n + h' := by ring
        rw [e1, e2]
        exact block_ne hh (by omega) (Or.inl (by omega))
      · have e1 : k * n * 3 + 2 * n + h = (3 * k + 2) * n + h := by ring
        have e2 : S.iout * n * 3 + n + h' = (3 * S.iout + 1) * n + h' := by ring
        rw [e1, e2]
        exact block_ne hh (by omega) (Or.inl (by omega))
      · have e1 : k * n * 3 + 2 * n + h = (3 * k + 2) * n + h := by ring
        have e2 : S.iout * n * 3 + 2 * n + h' = (3 * S.iout + 2) * n + h' := by ring
        rw [e1, e2]
        exact block_ne hh (by omega) (Or.inl (by omega))
  refine ⟨?_, ?_, ?_, ?_, ?_, ?_, ?_, ?_, ?_, ?_, ?_, ?_⟩
  · rw [timeStep_lastTime]
    simp
  · intro k hk hkT
    rw [timeStep_iout] at hk
    by_cases hm : m = oi S.iout
    · rw [if_pos hm] at hk
      rcases Nat.lt_succ_iff_lt_or_eq.mp hk with hk | hk
      · exact Nat.lt_succ_of_lt (H.consumed_lt k hk hkT)
      · subst hk
        omega
    · rw [if_neg hm] at hk
      exact Nat.lt_succ_of_lt (H.consumed_lt k hk hkT)
  · rw [timeStep_iout]
    by_cases hm : m = oi S.iout
    · rw [if_pos hm]
      by_cases hT : Tout ≤ S.iout + 1
      · exact Or.inl hT
      · refine Or.inr ?_
        have := hmono S.iout (S.iout + 1) (Nat.lt_succ_self _) (by omega)
        omega
    · rw [if_neg hm]
      rcases H.cursor_ge with hge | hge
      · exact Or.inl hge
      · exact Or.inr (by omega)
  · intro h hh
    rw [timeStep_results,
      innerFold_results_acc c n Tout mp (zs m) (1 / (1 + zs m)) (ts m - S.lastTime) m
        (oi S.iout) S.iout S n le_rfl h hh,
      H.acc_eq h hh, hdt, stepSFR_eq, mstarEuler_succ]
    ring
  · intro h hh k hk hkT hkne
    rw [timeStep_iout] at hk
    rw [timeStep_results]
    by_cases hm : m = oi S.iout
    · rw [if_pos hm] at hk
      rcases Nat.lt_succ_iff_lt_or_eq.mp hk with hk | hk
      · rw [hUnMS h k hh hkT hkne (by omega)]
        exact H.mstar_eq h hh k hk hkT hkne
      · subst hk
        have hsnap := (innerFold_results_snap c n Tout mp (zs m) (1 / (1 + zs m))
          (ts m - S.lastTime) m (oi S.iout) S.iout S hm n le_rfl h hh).2.2 hkne
        rw [hsnap, H.acc_eq h hh, hdt, stepSFR_eq, ← hm, mstarEuler_succ]
        ring
    · rw [if_neg hm] at hk
      rw [hUnMS h k hh hkT hkne (by omega)]
      exact H.mstar_eq h hh k hk hkT hkne
  · intro h hh k hk hkT
    rw [timeStep_iout] at hk
    rw [timeStep_results]
    by_cases hm : m = oi S.iout
    · rw [if_pos hm] at hk
      rcases Nat.lt_succ_iff_lt_or_eq.mp hk with hk | hk
      · rw [hUnSF h k hh hkT (by omega)]
        exact H.sfr_eq h hh k hk hkT
      · subst hk
        have hsnap := (innerFold_results_snap c n Tout mp (zs m) (1 / (1 + zs m))
          (ts m - S.lastTime) m (oi S.iout) S.iout S hm n le_rfl h hh).1
        rw [hsnap, stepSFR_eq, ← hm]
    · rw [if_neg hm] at hk
      rw [hUnSF h k hh hkT (by omega)]
      exact H.sfr_eq h hh k hk hkT
  · intro h hh k hk hkT
    rw [timeStep_iout] at hk
    rw [timeStep_results]
    by_cases hm : m = oi S.iout
    · rw [if_pos hm] at hk
      rcases Nat.lt_succ_iff_lt_or_eq.mp hk with hk | hk
      · rw [hUnMH h k hh hkT (by omega)]
        exact H.mhalo_eq h hh k hk hkT
      · subst hk
        have hsnap := (innerFold_results_snap c n Tout mp (zs m) (1 / (1 + zs m))
          (ts m - S.lastTime) m (oi S.iout) S.iout S hm n le_rfl h hh).2.1
        rw [hsnap, stepMhalo_eq, ← hm]
    · rw [if_neg hm] at hk
      rw [hUnMH h k hh hkT (by omega)]
      exact H.mhalo_eq h hh k hk hkT
  · intro h hh
    rw [timeStep_writes, List.count_append, H.acc_wcount h hh,
      innerChunk_count_acc n Tout S.iout m (oi S.iout) h hh n le_rfl, timeStep_iout]
    split_ifs <;> omega
  · intro h hh k hkT hkne
    rw [timeStep_writes, List.count_append, H.mstar_wcount h hh k hkT hkne,
      innerChunk_count_ms n Tout S.iout m (oi S.iout) h k hh hkT hkne n le_rfl, timeStep_iout]
    split_ifs <;> omega
  · intro h hh k hkT
    rw [timeStep_writes, List.count_append, H.sfr_wcount h hh k hkT,
      innerChunk_count_sf n Tout S.iout m (oi S.iout) h k hh hkT n le_rfl, timeStep_iout]
    split_ifs <;> omega
  · intro h hh k hkT
    rw [timeStep_writes, List.count_append, H.mhalo_wcount h hh k hkT,
      innerChunk_count_mh n Tout S.iout m (oi S.iout) h k hh hkT n le_rfl, timeStep_iout]
    split_ifs <;> omega
  · intro j hj
    rw [timeStep_reads] at hj
    rcases List.mem_append.mp hj with hj | hj
    · exact H.reads_acc j hj
    · obtain ⟨h, hh, e⟩ := innerReads_mem n Tout m (oi S.iout) n j hj
      exact ⟨h, hh, e⟩

lemma masterInv_run (hTout : 0 < Tout)
    (hmono : ∀ k1 k2, k1 < k2 → k2 < Tout → oi k1 < oi k2) :
    ∀ m, MasterInv c n Tout mp ts zs oi res0 m (runUpTo c n Tout mp ts zs oi res0 m)
  | 0 => masterInv_init c n Tout mp ts zs oi res0 hTout
  | m + 1 => by
      rw [runUpTo_succ]
      exact masterInv_step c n Tout mp ts zs oi res0 hTout hmono m _
        (masterInv_run hTout hmono m)

/-- Final-state characterization of the full call: under the data-model
invariants on `output_indices`, all requested outputs have been consumed and
the master invariant describes every slot of every requested block. -/
lemma master_final (T : ℕ) (hTout : 0 < Tout)
    (hmono : ∀ k1 k2, k1 < k2 → k2 < Tout → oi k1 < oi k2)
    (hbound : ∀ k, k < Tout → oi k < T) :
    Tout ≤ (mstar_at_multi_zobs c n T Tout mp ts zs oi res0).iout ∧
      MasterInv c n Tout mp ts zs oi res0 T
        (mstar_at_multi_zobs c n T Tout mp ts zs oi res0) := by
  have H := masterInv_run c n Tout mp ts zs oi res0 hTout hmono T
  have e : mstar_at_multi_zobs c n T Tout mp ts zs oi res0 =
      runUpTo c n Tout mp ts zs oi res0 T := rfl
  rw [e]
  refine ⟨?_, H⟩
  rcases H.cursor_ge with hle | hge
  · exact hle
  · by_contra hlt
    push_neg at hlt
    exact absurd (hbound _ hlt) (by omega)

end Master

/-! ## Positivity of the physics kernels, and monotonicity of the Euler sum -/

lemma halo_mass_at_z_pos (mp_z0 z a : ℝ) (hz : 0 ≤ z) : 0 < halo_mass_at_z mp_z0 z a := by
  have h1 : (0:ℝ) < 1 + z := by linarith
  have h2 : (0:ℝ) < 1 + 0.5 * z := by linarith
  simp only [halo_mass_at_z]
  have hM : (0:ℝ) < (10 : ℝ) ^ (13.276 : ℝ) * (1 + z) ^ (3.0 : ℝ) *
      (1 + 0.5 * z) ^ (-6.11 : ℝ) * Real.exp (-0.503 * z) :=
    mul_pos (mul_pos (mul_pos (Real.rpow_pos_of_pos (by norm_num) _)
      (Real.rpow_pos_of_pos h1 _)) (Real.rpow_pos_of_pos h2 _)) (Real.exp_pos _)
  exact mul_pos hM (Real.rpow_pos_of_pos (by norm_num) _)

lemma vmax_at_z_pos (halo_mass a : ℝ) (hm : 0 < halo_mass) (ha : 0 < a) :
    0 < vmax_at_z halo_mass a := by
  have hbase : (0:ℝ) < a / 0.378 := by positivity
  simp only [vmax_at_z]
  have hd : (0:ℝ) < (a / 0.378) ^ (-0.142 : ℝ) + (a / 0.378) ^ (-1.79 : ℝ) :=
    add_pos (Real.rpow_pos_of_pos hbase _) (Real.rpow_pos_of_pos hbase _)
  have hpiv : (0:ℝ) < 1.64e12 / ((a / 0.378) ^ (-0.142 : ℝ) + (a / 0.378) ^ (-1.79 : ℝ)) :=
    div_pos (by norm_num) hd
  have : (0:ℝ) < halo_mass / (1.64e12 / ((a / 0.378) ^ (-0.142 : ℝ) +
      (a / 0.378) ^ (-1.79 : ℝ))) := div_pos hm hpiv
  have := Real.rpow_pos_of_pos this ((1 : ℝ) / 3)
  linarith

lemma sfr_at_z_pos (c : SFRCoeffs) (vmax a z : ℝ) (hv : 0 < vmax) :
    0 < sfr_at_z c vmax a z := by
  simp only [sfr_at_z]
  have hV : (0:ℝ) < (10 : ℝ) ^ (c.logV_0 + c.logV_a * (1 - a) +
      c.logV_lnz * Real.log (1 + z) + c.logV_z * z) := Real.rpow_pos_of_pos (by norm_num) _
  have hvv : (0:ℝ) < vmax / (10 : ℝ) ^ (c.logV_0 + c.logV_a * (1 - a) +
      c.logV_lnz * Real.log (1 + z) + c.logV_z * z) := div_pos hv hV
  have ht1 : (0:ℝ) < 1 / ((vmax / (10 : ℝ) ^ (c.logV_0 + c.logV_a * (1 - a) +
      c.logV_lnz * Real.log (1 + z) + c.logV_z * z)) ^
        (c.alpha_0 + c.alpha_a * (1 - a) + c.alpha_lnz * Real.log (1 + z) + c.alpha_z * z) +
      (vmax / (10 : ℝ) ^ (c.logV_0 + c.logV_a * (1 - a) +
      c.logV_lnz * Real.log (1 + z) + c.logV_z * z)) ^
        (c.beta_0 + c.beta_a * (1 - a) + c.beta_z * z)) :=
    div_pos one_pos (add_pos (Real.rpow_pos_of_pos hvv _) (Real.rpow_pos_of_pos hvv _))
  have ht2 : (0:ℝ) < (10 : ℝ) ^ (c.gamma_0 + c.gamma_a * (1 - a) + c.gamma_z * z) *
      Real.exp ((-Real.logb 10 (vmax / (10 : ℝ) ^ (c.logV_0 + c.logV_a * (1 - a) +
        c.logV_lnz * Real.log (1 + z) + c.logV_z * z)) *
        Real.logb 10 (vmax / (10 : ℝ) ^ (c.logV_0 + c.logV_a * (1 - a) +
        c.logV_lnz * Real.log (1 + z) + c.logV_z * z))) / (2 * c.delta_0)) :=
    mul_pos (Real.rpow_pos_of_pos (by norm_num) _) (Real.exp_pos _)
  exact mul_pos (Real.rpow_pos_of_pos (by norm_num) _) (add_pos ht1 ht2)

lemma sfrOfStep_pos (c : SFRCoeffs) (mp zs : ℕ → ℝ) (h i : ℕ) (hz : 0 ≤ zs i) :
    0 < sfrOfStep c mp zs h i := by
  have ha : (0:ℝ) < 1 / (1 + zs i) := by
    have : (0:ℝ) < 1 + zs i := by linarith
    positivity
  exact sfr_at_z_pos c _ _ _ (vmax_at_z_pos _ _
    (halo_mass_at_z_pos (mp h) (zs i) (1 / (1 + zs i)) hz) ha)

lemma dtOfStep_pos (ts : ℕ → ℝ) (T : ℕ)
    (htimes : ∀ i j, i < j → j < T → ts i < ts j) (ht0 : 0 < ts 0)
    (i : ℕ) (hi : i < T) : 0 < dtOfStep ts i := by
  unfold dtOfStep
  by_cases h0 : i = 0
  · rw [if_pos h0]
    linarith
  · rw [if_neg h0]
    have := htimes (i - 1) i (by omega) hi
    linarith

lemma mstarEuler_mono (c : SFRCoeffs) (mp ts zs : ℕ → ℝ) (T : ℕ)
    (htimes : ∀ i j, i < j → j < T → ts i < ts j) (ht0 : 0 < ts 0)
    (hz : ∀ i, i < T → 0 ≤ zs i) (h m1 m2 : ℕ) (h12 : m1 ≤ m2) (h2T : m2 ≤ T) :
    mstarEuler c mp ts zs h m1 ≤ mstarEuler c mp ts zs h m2 := by
  unfold mstarEuler
  refine Finset.sum_le_sum_of_subset_of_nonneg (Finset.range_subset.mpr h12) ?_
  intro i hi _
  have hiT : i < T := by
    have := Finset.mem_range.mp hi
    omega
  exact le_of_lt (mul_pos (sfrOfStep_pos c mp zs h i (hz i hiT))
    (dtOfStep_pos ts T htimes ht0 i hiT))

/-! ## The cursor never runs past the requested outputs when the last
requested index is the last timestep -/

section Cursor

variable (c : SFRCoeffs) (n Tout T : ℕ) (mp ts zs : ℕ → ℝ) (oi : ℕ → ℕ) (res0 : ℕ → ℝ)

lemma runUpTo_iout_lt (hTout : 0 < Tout)
    (hmono : ∀ k1 k2, k1 < k2 → k2 < Tout → oi k1 < oi k2)
    (hlast : oi (Tout - 1) = T - 1) (m : ℕ) (hm : m < T) :
    (runUpTo c n Tout mp ts zs oi res0 m).iout < Tout := by
  have H := masterInv_run c n Tout mp ts zs oi res0 hTout hmono m
  by_contra hge
  push_neg at hge
  have := H.consumed_lt (Tout - 1) (by omega) (by omega)
  rw [hlast] at this
  omega

lemma runUpTo_congr_outIdx (hTout : 0 < Tout)
    (hmono : ∀ k1 k2, k1 < k2 → k2 < Tout → oi k1 < oi k2)
    (hlast : oi (Tout - 1) = T - 1) (oi' : ℕ → ℕ)
    (hagree : ∀ k, k < Tout → oi' k = oi k) :
    ∀ m, m ≤ T → runUpTo c n Tout mp ts zs oi' res0 m =
      runUpTo c n Tout mp ts zs oi res0 m
  | 0, _ => rfl
  | m + 1, hmT => by
      rw [runUpTo_succ, runUpTo_succ,
        runUpTo_congr_outIdx hTout hmono hlast oi' hagree m (by omega)]
      have hcur : (runUpTo c n Tout mp ts zs oi res0 m).iout < Tout :=
        runUpTo_iout_lt c n Tout T mp ts zs oi res0 hTout hmono hlast m (by omega)
      have he : oi' (runUpTo c n Tout mp ts zs oi res0 m).iout =
          oi (runUpTo c n Tout mp ts zs oi res0 m).iout := hagree _ hcur
      unfold timeStep
      rw [he]

end Cursor

/-! ## Per-halo congruence: each halo's outputs depend only on its own mass -/

lemma sfrOfStep_congr (c : SFRCoeffs) (zs mp1 mp2 : ℕ → ℝ) (h1 h2 i : ℕ)
    (e : mp1 h1 = mp2 h2) : sfrOfStep c mp1 zs h1 i = sfrOfStep c mp2 zs h2 i := by
  unfold sfrOfStep haloMassOfStep
  rw [e]

lemma haloMassOfStep_congr (zs mp1 mp2 : ℕ → ℝ) (h1 h2 i : ℕ)
    (e : mp1 h1 = mp2 h2) : haloMassOfStep mp1 zs h1 i = haloMassOfStep mp2 zs h2 i := by
  unfold haloMassOfStep
  rw [e]

lemma mstarEuler_congr (c : SFRCoeffs) (ts zs mp1 mp2 : ℕ → ℝ) (h1 h2 m : ℕ)
    (e : mp1 h1 = mp2 h2) : mstarEuler c mp1 ts zs h1 m = mstarEuler c mp2 ts zs h2 m := by
  unfold mstarEuler
  exact Finset.sum_congr rfl (fun i _ => by rw [sfrOfStep_congr c zs mp1 mp2 h1 h2 i e])

/-- The backing slot of the running accumulator lies inside the logical
results buffer. -/
lemma final_slot_lt (n Tout h : ℕ) (hh : h < n) (hTout : 0 < Tout) :
    (Tout - 1) * n * 3 + h < n * Tout * 3 := by
  have h1 : Tout - 1 + 1 = Tout := by omega
  have h2 : (Tout - 1) * n * 3 + n * 3 = n * Tout * 3 := by
    calc (Tout - 1) * n * 3 + n * 3 = n * (Tout - 1 + 1) * 3 := by ring
      _ = n * Tout * 3 := by rw [h1]
  omega

/-! ## The claims -/

/-- C9: the halo-mass sub-computation evaluated at redshift `z = 0` (scale
factor `a = 1/(1+0) = 1`) returns exactly the input peak mass `mp_z0`: the
pivot mass equals its present-day value and the two logistic factors cancel,
so `halo_mass = 10^13.276 * 10^(log10(mp_z0/10^13.276)) = mp_z0`. -/
theorem C9_halo_mass_identity_at_z0 (mp_z0 : ℝ) (hmp : 0 < mp_z0) :
    halo_mass_at_z mp_z0 0 (1 / (1 + (0 : ℝ))) = mp_z0 := by
  have hx : ∀ x : ℝ, (0 : ℝ) < 1 + Real.exp x := fun x => by positivity
  simp only [halo_mass_at_z]
  norm_num
  rw [div_self (ne_of_gt (hx _)), mul_one,
    Real.rpow_logb (by norm_num) (by norm_num)
      (div_pos hmp (Real.rpow_pos_of_pos (by norm_num) _)),
    mul_comm, div_mul_cancel₀ _ (ne_of_gt (Real.rpow_pos_of_pos (by norm_num) _))]

theorem C9_halo_mass_identity_at_z0_witness :
    (0 : ℝ) < 2 ∧ halo_mass_at_z 2 0 (1 / (1 + (0 : ℝ))) = 2 :=
  ⟨by norm_num, C9_halo_mass_identity_at_z0 2 (by norm_num)⟩

/-- C7 counterexample: the entry point does not take 17 named SFR fitting
coefficients; its keyword-parameter list has 19 entries. -/
theorem C7_coeff_count_counterexample : ¬ sfrCoeffDefaults.length = 17 := by
  simp [sfrCoeffDefaults]

/-- C7 amended: the public entry point takes 19 named SFR fitting coefficients
as optional parameters (not 17), and the default value of each named
coefficient reproduces bit-for-bit the literal listed in the spec's section 6. -/
theorem C7_coeff_defaults_amended :
    sfrCoeffDefaults.length = 19 ∧
    sfrCoeffDefaults =
      [("logV_0", (2.151 : ℝ)), ("logV_a", -1.658), ("logV_lnz", 1.68), ("logV_z", -0.233),
       ("alpha_0", -5.598), ("alpha_a", -20.731), ("alpha_lnz", 13.455), ("alpha_z", -1.321),
       ("beta_0", -1.911), ("beta_a", 0.395), ("beta_z", 0.747),
       ("gamma_0", -1.699), ("gamma_a", 4.206), ("gamma_z", -0.809), ("delta_0", 0.055),
       ("epsilon_0", 0.109), ("epsilon_a", -3.441), ("epsilon_lnz", 5.079),
       ("epsilon_z", -0.781)] ∧
    defaultSFRCoeffs =
      ⟨2.151, -1.658, 1.68, -0.233, -5.598, -20.731, 13.455, -1.321, -1.911, 0.395, 0.747,
       -1.699, 4.206, -0.809, 0.055, 0.109, -3.441, 5.079, -0.781⟩ :=
  ⟨rfl, rfl, rfl⟩

/-- C1: for a call whose inputs satisfy the documented preconditions (positive
peak masses, strictly increasing positive times, paired redshifts, strictly
increasing output indices inside `[0, ntimes)` ending at `ntimes - 1`, and a
zero-initialized results buffer), the stellar-mass entry left in output slot
`k`'s stellar-mass sub-block at position `h` equals the forward-Euler sum of
`sfr(h,i) * dt_i` for `i = 0 .. output_indices k`, with
`dt_0 = times 0 - 0.9 * times 0` and `dt_i = times i - times (i-1)`; in
particular the first integration interval is exactly `0.1 * times 0`. -/
theorem C1_mstar_is_forward_euler_sum (c : SFRCoeffs) (nhalos ntimes ntimes_out : ℕ)
    (core_mpeak_at_z0 times redshifts : ℕ → ℝ) (output_indices : ℕ → ℕ) (results0 : ℕ → ℝ)
    (hmp : ∀ h, h < nhalos → 0 < core_mpeak_at_z0 h)
    (htimes : ∀ i j, i < j → j < ntimes → times i < times j)
    (ht0 : 0 < times 0)
    (hmono : ∀ k1 k2, k1 < k2 → k2 < ntimes_out → output_indices k1 < output_indices k2)
    (hbound : ∀ k, k < ntimes_out → output_indices k < ntimes)
    (hlast : output_indices (ntimes_out - 1) = ntimes - 1)
    (hres : ∀ j, j < nhalos * ntimes_out * 3 → results0 j = 0) :
    (∀ h, h < nhalos → ∀ k, k < ntimes_out →
      (mstar_at_multi_zobs c nhalos ntimes ntimes_out core_mpeak_at_z0 times redshifts
          output_indices results0).results (k * nhalos * 3 + h) =
        mstarEuler c core_mpeak_at_z0 times redshifts h (output_indices k + 1)) ∧
    dtOfStep times 0 = 0.1 * times 0 := by
  constructor
  · intro h hh k hk
    have hTout : 0 < ntimes_out := by omega
    obtain ⟨hiout, H⟩ := master_final c nhalos ntimes_out core_mpeak_at_z0 times redshifts
      output_indices results0 ntimes hTout hmono hbound
    have hT1 : 0 < ntimes := by
      have := hbound 0 hTout
      omega
    have hfi : (ntimes_out - 1) * nhalos * 3 + h < nhalos * ntimes_out * 3 := by
      have h1 : ntimes_out - 1 + 1 = ntimes_out := by omega
      have h2 : (ntimes_out - 1) * nhalos * 3 + nhalos * 3 = nhalos * ntimes_out * 3 := by
        calc (ntimes_out - 1) * nhalos * 3 + nhalos * 3
            = nhalos * (ntimes_out - 1 + 1) * 3 := by ring
          _ = nhalos * ntimes_out * 3 := by rw [h1]
      omega
    by_cases hkT : k = ntimes_out - 1
    · subst hkT
      rw [H.acc_eq h hh, hres _ hfi, zero_add, hlast,
        show ntimes - 1 + 1 = ntimes by omega]
    · rw [H.mstar_eq h hh k (by omega) hk hkT, hres _ hfi, zero_add]
  · unfold dtOfStep
    rw [if_pos rfl]
    ring

theorem C1_mstar_is_forward_euler_sum_witness :
    (mstar_at_multi_zobs defaultSFRCoeffs 1 1 1 (fun _ => 1) (fun _ => 1) (fun _ => 0)
        (fun _ => 0) (fun _ => 0)).results 0 =
      mstarEuler defaultSFRCoeffs (fun _ => 1) (fun _ => 1) (fun _ => 0) 0 1 ∧
    dtOfStep (fun _ => 1) 0 = 0.1 * 1 := by
  have H := C1_mstar_is_forward_euler_sum defaultSFRCoeffs 1 1 1 (fun _ => 1) (fun _ => 1)
    (fun _ => 0) (fun _ => 0) (fun _ => 0)
    (by intro h _; norm_num)
    (by intro i j hij hj; omega)
    (by norm_num)
    (by intro k1 k2 h12 h2; omega)
    (by intro k _; norm_num)
    (by norm_num)
    (by intro j _; rfl)
  refine ⟨?_, ?_⟩
  · simpa using H.1 0 (by norm_num) 0 (by norm_num)
  · simpa using H.2

/-- C6: the results buffer is laid out as `ntimes_out` blocks of size
`3*nhalos`, block `k` starting at offset `k*3*nhalos` with three consecutive
sub-blocks of length `nhalos` in the order stellar mass, SFR, halo mass; at
timestep `output_indices k` the integrator stores, for every halo, the
accumulated stellar mass, the instantaneous SFR and the instantaneous halo
mass of that timestep there. -/
theorem C6_results_buffer_layout (c : SFRCoeffs) (nhalos ntimes ntimes_out : ℕ)
    (core_mpeak_at_z0 times redshifts : ℕ → ℝ) (output_indices : ℕ → ℕ) (results0 : ℕ → ℝ)
    (hmono : ∀ k1 k2, k1 < k2 → k2 < ntimes_out → output_indices k1 < output_indices k2)
    (hbound : ∀ k, k < ntimes_out → output_indices k < ntimes)
    (hlast : output_indices (ntimes_out - 1) = ntimes - 1)
    (hres : ∀ j, j < nhalos * ntimes_out * 3 → results0 j = 0) :
    ∀ k, k < ntimes_out → ∀ h, h < nhalos →
      (mstar_at_multi_zobs c nhalos ntimes ntimes_out core_mpeak_at_z0 times redshifts
          output_indices results0).results (k * nhalos * 3 + h) =
        mstarEuler c core_mpeak_at_z0 times redshifts h (output_indices k + 1) ∧
      (mstar_at_multi_zobs c nhalos ntimes ntimes_out core_mpeak_at_z0 times redshifts
          output_indices results0).results (k * nhalos * 3 + nhalos + h) =
        sfrOfStep c core_mpeak_at_z0 redshifts h (output_indices k) ∧
      (mstar_at_multi_zobs c nhalos ntimes ntimes_out core_mpeak_at_z0 times redshifts
          output_indices results0).results (k * nhalos * 3 + 2 * nhalos + h) =
        haloMassOfStep core_mpeak_at_z0 redshifts h (output_indices k) := by
  intro k hk h hh
  have hTout : 0 < ntimes_out := by omega
  obtain ⟨hiout, H⟩ := master_final c nhalos ntimes_out core_mpeak_at_z0 times redshifts
    output_indices results0 ntimes hTout hmono hbound
  have hfi := final_slot_lt nhalos ntimes_out h hh hTout
  have hT1 : 0 < ntimes := by
    have := hbound 0 hTout
    omega
  refine ⟨?_, ?_, ?_⟩
  · by_cases hkT : k = ntimes_out - 1
    · subst hkT
      rw [H.acc_eq h hh, hres _ hfi, zero_add, hlast,
        show ntimes - 1 + 1 = ntimes by omega]
    · rw [H.mstar_eq h hh k (by omega) hk hkT, hres _ hfi, zero_add]
  · exact H.sfr_eq h hh k (by omega) hk
  · exact H.mhalo_eq h hh k (by omega) hk

theorem C6_results_buffer_layout_witness :
    (mstar_at_multi_zobs defaultSFRCoeffs 1 1 1 (fun _ => 1) (fun _ => 1) (fun _ => 0)
        (fun _ => 0) (fun _ => 0)).results (0 * 1 * 3 + 0) =
      mstarEuler defaultSFRCoeffs (fun _ => 1) (fun _ => 1) (fun _ => 0) 0
        ((fun _ : ℕ => 0) 0 + 1) ∧
    (mstar_at_multi_zobs defaultSFRCoeffs 1 1 1 (fun _ => 1) (fun _ => 1) (fun _ => 0)
        (fun _ => 0) (fun _ => 0)).results (0 * 1 * 3 + 1 + 0) =
      sfrOfStep defaultSFRCoeffs (fun _ => 1) (fun _ => 0) 0 ((fun _ : ℕ => 0) 0) ∧
    (mstar_at_multi_zobs defaultSFRCoeffs 1 1 1 (fun _ => 1) (fun _ => 1) (fun _ => 0)
        (fun _ => 0) (fun _ => 0)).results (0 * 1 * 3 + 2 * 1 + 0) =
      haloMassOfStep (fun _ => 1) (fun _ => 0) 0 ((fun _ : ℕ => 0) 0) :=
  C6_results_buffer_layout defaultSFRCoeffs 1 1 1 (fun _ => 1) (fun _ => 1) (fun _ => 0)
    (fun _ => 0) (fun _ => 0)
    (by intro k1 k2 h12 h2; omega)
    (by intro k _; norm_num)
    (by norm_num)
    (by intro j _; rfl)
    0 (by norm_num) 0 (by norm_num)

/-- C5: with valid inputs (positive peak masses, strictly increasing positive
times, non-negative redshifts, the section-3 invariants on `output_indices`,
zero-initialized buffer), the stellar-mass snapshots of a fixed halo are
non-decreasing across successive output slots, because every per-step SFR is
non-negative and every integration interval is positive. -/
theorem C5_mstar_snapshots_monotone (c : SFRCoeffs) (nhalos ntimes ntimes_out : ℕ)
    (core_mpeak_at_z0 times redshifts : ℕ → ℝ) (output_indices : ℕ → ℕ) (results0 : ℕ → ℝ)
    (hmp : ∀ h, h < nhalos → 0 < core_mpeak_at_z0 h)
    (htimes : ∀ i j, i < j → j < ntimes → times i < times j)
    (ht0 : 0 < times 0)
    (hz : ∀ i, i < ntimes → 0 ≤ redshifts i)
    (hmono : ∀ k1 k2, k1 < k2 → k2 < ntimes_out → output_indices k1 < output_indices k2)
    (hbound : ∀ k, k < ntimes_out → output_indices k < ntimes)
    (hres : ∀ j, j < nhalos * ntimes_out * 3 → results0 j = 0) :
    ∀ h, h < nhalos → ∀ k, k + 1 < ntimes_out →
      (mstar_at_multi_zobs c nhalos ntimes ntimes_out core_mpeak_at_z0 times redshifts
          output_indices results0).results (k * nhalos * 3 + h) ≤
      (mstar_at_multi_zobs c nhalos ntimes ntimes_out core_mpeak_at_z0 times redshifts
          output_indices results0).results ((k + 1) * nhalos * 3 + h) := by
  intro h hh k hk1
  have hTout : 0 < ntimes_out := by omega
  obtain ⟨hiout, H⟩ := master_final c nhalos ntimes_out core_mpeak_at_z0 times redshifts
    output_indices results0 ntimes hTout hmono hbound
  have hfi := final_slot_lt nhalos ntimes_out h hh hTout
  rw [H.mstar_eq h hh k (by omega) (by omega) (by omega), hres _ hfi, zero_add]
  by_cases hk2 : k + 1 = ntimes_out - 1
  · rw [show (k + 1) * nhalos * 3 + h = (ntimes_out - 1) * nhalos * 3 + h by rw [hk2],
      H.acc_eq h hh, hres _ hfi, zero_add]
    exact mstarEuler_mono c core_mpeak_at_z0 times redshifts ntimes htimes ht0 hz h
      (output_indices k + 1) ntimes (by have := hbound k (by omega); omega) le_rfl
  · rw [H.mstar_eq h hh (k + 1) (by omega) (by omega) hk2, hres _ hfi, zero_add]
    have hlt := hmono k (k + 1) (by omega) (by omega)
    exact mstarEuler_mono c core_mpeak_at_z0 times redshifts ntimes htimes ht0 hz h
      (output_indices k + 1) (output_indices (k + 1) + 1) (by omega)
      (by have := hbound (k + 1) (by omega); omega)

theorem C5_mstar_snapshots_monotone_witness :
    (mstar_at_multi_zobs defaultSFRCoeffs 1 2 2 (fun _ => 1) (fun i => (i : ℝ) + 1)
        (fun i => 1 - (i : ℝ)) (fun k => k) (fun _ => 0)).results (0 * 1 * 3 + 0) ≤
    (mstar_at_multi_zobs defaultSFRCoeffs 1 2 2 (fun _ => 1) (fun i => (i : ℝ) + 1)
        (fun i => 1 - (i : ℝ)) (fun k => k) (fun _ => 0)).results ((0 + 1) * 1 * 3 + 0) :=
  C5_mstar_snapshots_monotone defaultSFRCoeffs 1 2 2 (fun _ => 1) (fun i => (i : ℝ) + 1)
    (fun i => 1 - (i : ℝ)) (fun k => k) (fun _ => 0)
    (by intro h _; norm_num)
    (by
      intro i j hij hj
      show (i : ℝ) + 1 < (j : ℝ) + 1
      have : (i : ℝ) < j := by exact_mod_cast hij
      linarith)
    (by norm_num)
    (by
      intro i hi
      show (0 : ℝ) ≤ 1 - (i : ℝ)
      have : (i : ℝ) ≤ 1 := by exact_mod_cast Nat.lt_succ_iff.mp hi
      linarith)
    (by intro k1 k2 h12 h2; simpa using h12)
    (by intro k hk; simpa using hk)
    (by intro j _; rfl)
    0 (by norm_num) 0 (by norm_num)

/-- C2 counterexample: with `nhalos = 1`, `times = [1, 2]`,
`redshifts = [1, 0]`, a single requested output index `0 < ntimes - 1` and a
zero-initialized buffer, the single stellar-mass entry of the results buffer
does not hold the value snapshotted at its requested output index (the
forward-Euler sum through step 0); it keeps accumulating because it backs the
running accumulator. -/
theorem C2_counterexample :
    (mstar_at_multi_zobs defaultSFRCoeffs 1 2 1 (fun _ => 1) (fun i => (i : ℝ) + 1)
        (fun i => 1 - (i : ℝ)) (fun _ => 0) (fun _ => 0)).results 0 ≠
      mstarEuler defaultSFRCoeffs (fun _ => 1) (fun i => (i : ℝ) + 1)
        (fun i => 1 - (i : ℝ)) 0 1 := by
  obtain ⟨hiout, H⟩ := master_final defaultSFRCoeffs 1 1 (fun _ => 1) (fun i => (i : ℝ) + 1)
    (fun i => 1 - (i : ℝ)) (fun _ => 0) (fun _ => 0) 2 (by norm_num)
    (by intro k1 k2 h12 h2; omega)
    (by intro k _; norm_num)
  have hacc := H.acc_eq 0 (by norm_num)
  norm_num at hacc
  rw [hacc, mstarEuler_succ]
  have hpos : 0 < sfrOfStep defaultSFRCoeffs (fun _ => 1) (fun i => 1 - (i : ℝ)) 0 1 :=
    sfrOfStep_pos defaultSFRCoeffs (fun _ => 1) (fun i => 1 - (i : ℝ)) 0 1 (by norm_num)
  have hdt : dtOfStep (fun i => (i : ℝ) + 1) 1 = 1 := by
    unfold dtOfStep
    norm_num
  rw [hdt, mul_one]
  intro e
  have : sfrOfStep defaultSFRCoeffs (fun _ => 1) (fun i => 1 - (i : ℝ)) 0 1 = 0 := by
    linarith
  linarith

/-- C2 amended: if the last requested output index is below `ntimes - 1`, the
integrator still accumulates stellar mass through the last timestep, and that
final accumulated mass is not discarded: it is visible in the final output
block's stellar-mass sub-block, which backs the running accumulator (so those
entries hold the full accumulation rather than their snapshot values), while
every other entry — stellar mass of non-final blocks, and all SFR and
halo-mass entries — holds exactly the value snapshotted at its own requested
output index. -/
theorem C2_missing_last_output_amended (c : SFRCoeffs) (nhalos ntimes ntimes_out : ℕ)
    (core_mpeak_at_z0 times redshifts : ℕ → ℝ) (output_indices : ℕ → ℕ) (results0 : ℕ → ℝ)
    (hTout : 0 < ntimes_out)
    (hmono : ∀ k1 k2, k1 < k2 → k2 < ntimes_out → output_indices k1 < output_indices k2)
    (hbound : ∀ k, k < ntimes_out → output_indices k < ntimes)
    (hlast : output_indices (ntimes_out - 1) < ntimes - 1)
    (hres : ∀ j, j < nhalos * ntimes_out * 3 → results0 j = 0) :
    ∀ h, h < nhalos →
      (mstar_at_multi_zobs c nhalos ntimes ntimes_out core_mpeak_at_z0 times redshifts
          output_indices results0).results ((ntimes_out - 1) * nhalos * 3 + h) =
        mstarEuler c core_mpeak_at_z0 times redshifts h ntimes ∧
      (∀ k, k < ntimes_out → k ≠ ntimes_out - 1 →
        (mstar_at_multi_zobs c nhalos ntimes ntimes_out core_mpeak_at_z0 times redshifts
            output_indices results0).results (k * nhalos * 3 + h) =
          mstarEuler c core_mpeak_at_z0 times redshifts h (output_indices k + 1)) ∧
      (∀ k, k < ntimes_out →
        (mstar_at_multi_zobs c nhalos ntimes ntimes_out core_mpeak_at_z0 times redshifts
            output_indices results0).results (k * nhalos * 3 + nhalos + h) =
          sfrOfStep c core_mpeak_at_z0 redshifts h (output_indices k) ∧
        (mstar_at_multi_zobs c nhalos ntimes ntimes_out core_mpeak_at_z0 times redshifts
            output_indices results0).results (k * nhalos * 3 + 2 * nhalos + h) =
          haloMassOfStep core_mpeak_at_z0 redshifts h (output_indices k)) := by
  intro h hh
  obtain ⟨hiout, H⟩ := master_final c nhalos ntimes_out core_mpeak_at_z0 times redshifts
    output_indices results0 ntimes hTout hmono hbound
  have hfi := final_slot_lt nhalos ntimes_out h hh hTout
  refine ⟨?_, ?_, ?_⟩
  · rw [H.acc_eq h hh, hres _ hfi, zero_add]
  · intro k hk hkne
    rw [H.mstar_eq h hh k (by omega) hk hkne, hres _ hfi, zero_add]
  · intro k hk
    exact ⟨H.sfr_eq h hh k (by omega) hk, H.mhalo_eq h hh k (by omega) hk⟩

theorem C2_missing_last_output_amended_witness :
    (mstar_at_multi_zobs defaultSFRCoeffs 1 2 1 (fun _ => 1) (fun i => (i : ℝ) + 1)
        (fun i => 1 - (i : ℝ)) (fun _ => 0) (fun _ => 0)).results ((1 - 1) * 1 * 3 + 0) =
      mstarEuler defaultSFRCoeffs (fun _ => 1) (fun i => (i : ℝ) + 1)
        (fun i => 1 - (i : ℝ)) 0 2 ∧
    (∀ k, k < 1 → k ≠ 1 - 1 →
      (mstar_at_multi_zobs defaultSFRCoeffs 1 2 1 (fun _ => 1) (fun i => (i : ℝ) + 1)
          (fun i => 1 - (i : ℝ)) (fun _ => 0) (fun _ => 0)).results (k * 1 * 3 + 0) =
        mstarEuler defaultSFRCoeffs (fun _ => 1) (fun i => (i : ℝ) + 1)
          (fun i => 1 - (i : ℝ)) 0 ((fun _ : ℕ => 0) k + 1)) ∧
    (∀ k, k < 1 →
      (mstar_at_multi_zobs defaultSFRCoeffs 1 2 1 (fun _ => 1) (fun i => (i : ℝ) + 1)
          (fun i => 1 - (i : ℝ)) (fun _ => 0) (fun _ => 0)).results (k * 1 * 3 + 1 + 0) =
        sfrOfStep defaultSFRCoeffs (fun _ => 1) (fun i => 1 - (i : ℝ)) 0
          ((fun _ : ℕ => 0) k) ∧
      (mstar_at_multi_zobs defaultSFRCoeffs 1 2 1 (fun _ => 1) (fun i => (i : ℝ) + 1)
          (fun i => 1 - (i : ℝ)) (fun _ => 0) (fun _ => 0)).results (k * 1 * 3 + 2 * 1 + 0) =
        haloMassOfStep (fun _ => 1) (fun i => 1 - (i : ℝ)) 0 ((fun _ : ℕ => 0) k)) :=
  C2_missing_last_output_amended defaultSFRCoeffs 1 2 1 (fun _ => 1) (fun i => (i : ℝ) + 1)
    (fun i => 1 - (i : ℝ)) (fun _ => 0) (fun _ => 0)
    (by norm_num)
    (by intro k1 k2 h12 h2; omega)
    (by intro k _; norm_num)
    (by norm_num)
    (by intro j _; rfl)
    0 (by norm_num)

/-- C4 counterexample: with `nhalos = 1`, `ntimes = 2`, one output slot at the
last timestep, the entry of the results buffer at position 0 — the (halo 0,
slot 0, stellar mass) triple, which backs the running accumulator — is written
three times (two accumulations and one snapshot), not exactly once. -/
theorem C4_counterexample :
    ¬ (mstar_at_multi_zobs defaultSFRCoeffs 1 2 1 (fun _ => 1) (fun i => (i : ℝ) + 1)
        (fun i => 1 - (i : ℝ)) (fun _ => 1) (fun _ => 0)).writes.count 0 = 1 := by
  obtain ⟨hiout, H⟩ := master_final defaultSFRCoeffs 1 1 (fun _ => 1) (fun i => (i : ℝ) + 1)
    (fun i => 1 - (i : ℝ)) (fun _ => 1) (fun _ => 0) 2 (by norm_num)
    (by intro k1 k2 h12 h2; omega)
    (by intro k _; norm_num)
  have hc := H.acc_wcount 0 (by norm_num)
  rw [if_pos hiout] at hc
  norm_num at hc
  omega

/-- C4 amended: during one call the integrator mutates only the results
buffer; each buffer entry outside the final block's stellar-mass sub-block is
written exactly once, while each final-block stellar-mass entry (the running
accumulator's backing store) is written `ntimes + 1` times — once per
timestep by the accumulation plus once by its own snapshot; and every read
of the buffer is at a final-block stellar-mass (accumulator) position. -/
theorem C4_write_once_amended (c : SFRCoeffs) (nhalos ntimes ntimes_out : ℕ)
    (core_mpeak_at_z0 times redshifts : ℕ → ℝ) (output_indices : ℕ → ℕ) (results0 : ℕ → ℝ)
    (hTout : 0 < ntimes_out)
    (hmono : ∀ k1 k2, k1 < k2 → k2 < ntimes_out → output_indices k1 < output_indices k2)
    (hbound : ∀ k, k < ntimes_out → output_indices k < ntimes) :
    ∀ h, h < nhalos →
      (mstar_at_multi_zobs c nhalos ntimes ntimes_out core_mpeak_at_z0 times redshifts
          output_indices results0).writes.count ((ntimes_out - 1) * nhalos * 3 + h) =
        ntimes + 1 ∧
      (∀ k, k < ntimes_out → k ≠ ntimes_out - 1 →
        (mstar_at_multi_zobs c nhalos ntimes ntimes_out core_mpeak_at_z0 times redshifts
            output_indices results0).writes.count (k * nhalos * 3 + h) = 1) ∧
      (∀ k, k < ntimes_out →
        (mstar_at_multi_zobs c nhalos ntimes ntimes_out core_mpeak_at_z0 times redshifts
            output_indices results0).writes.count (k * nhalos * 3 + nhalos + h) = 1 ∧
        (mstar_at_multi_zobs c nhalos ntimes ntimes_out core_mpeak_at_z0 times redshifts
            output_indices results0).writes.count (k * nhalos * 3 + 2 * nhalos + h) = 1) ∧
      (∀ j, j ∈ (mstar_at_multi_zobs c nhalos ntimes ntimes_out core_mpeak_at_z0 times
          redshifts output_indices results0).reads →
        ∃ h', h' < nhalos ∧ j = (ntimes_out - 1) * nhalos * 3 + h') := by
  intro h hh
  obtain ⟨hiout, H⟩ := master_final c nhalos ntimes_out core_mpeak_at_z0 times redshifts
    output_indices results0 ntimes hTout hmono hbound
  refine ⟨?_, ?_, ?_, ?_⟩
  · rw [H.acc_wcount h hh, if_pos hiout]
  · intro k hk hkne
    rw [H.mstar_wcount h hh k hk hkne, if_pos (by omega)]
  · intro k hk
    exact ⟨by rw [H.sfr_wcount h hh k hk, if_pos (by omega)],
           by rw [H.mhalo_wcount h hh k hk, if_pos (by omega)]⟩
  · exact H.reads_acc

theorem C4_write_once_amended_witness :
    (mstar_at_multi_zobs defaultSFRCoeffs 1 1 1 (fun _ => 1) (fun _ => 1) (fun _ => 0)
        (fun _ => 0) (fun _ => 0)).writes.count ((1 - 1) * 1 * 3 + 0) = 1 + 1 ∧
    (∀ k, k < 1 → k ≠ 1 - 1 →
      (mstar_at_multi_zobs defaultSFRCoeffs 1 1 1 (fun _ => 1) (fun _ => 1) (fun _ => 0)
          (fun _ => 0) (fun _ => 0)).writes.count (k * 1 * 3 + 0) = 1) ∧
    (∀ k, k < 1 →
      (mstar_at_multi_zobs defaultSFRCoeffs 1 1 1 (fun _ => 1) (fun _ => 1) (fun _ => 0)
          (fun _ => 0) (fun _ => 0)).writes.count (k * 1 * 3 + 1 + 0) = 1 ∧
      (mstar_at_multi_zobs defaultSFRCoeffs 1 1 1 (fun _ => 1) (fun _ => 1) (fun _ => 0)
          (fun _ => 0) (fun _ => 0)).writes.count (k * 1 * 3 + 2 * 1 + 0) = 1) ∧
    (∀ j, j ∈ (mstar_at_multi_zobs defaultSFRCoeffs 1 1 1 (fun _ => 1) (fun _ => 1)
        (fun _ => 0) (fun _ => 0) (fun _ => 0)).reads →
      ∃ h', h' < 1 ∧ j = (1 - 1) * 1 * 3 + h') :=
  C4_write_once_amended defaultSFRCoeffs 1 1 1 (fun _ => 1) (fun _ => 1) (fun _ => 0)
    (fun _ => 0) (fun _ => 0)
    (by norm_num)
    (by intro k1 k2 h12 h2; omega)
    (by intro k _; norm_num)
    0 (by norm_num)

/-- C3: when the last requested output index equals `ntimes - 1`, the
integrator never dereferences `output_indices` out of bounds: the whole run is
unchanged under any modification of `output_indices` beyond position
`ntimes_out - 1`, and the cursor is strictly below `ntimes_out` at the start
of every timestep (where the read happens). -/
theorem C3_output_indices_reads_in_bounds (c : SFRCoeffs) (nhalos ntimes ntimes_out : ℕ)
    (core_mpeak_at_z0 times redshifts : ℕ → ℝ) (output_indices : ℕ → ℕ) (results0 : ℕ → ℝ)
    (hTout : 0 < ntimes_out)
    (hmono : ∀ k1 k2, k1 < k2 → k2 < ntimes_out → output_indices k1 < output_indices k2)
    (hbound : ∀ k, k < ntimes_out → output_indices k < ntimes)
    (hlast : output_indices (ntimes_out - 1) = ntimes - 1) :
    (∀ oi' : ℕ → ℕ, (∀ k, k < ntimes_out → oi' k = output_indices k) →
      mstar_at_multi_zobs c nhalos ntimes ntimes_out core_mpeak_at_z0 times redshifts
          oi' results0 =
        mstar_at_multi_zobs c nhalos ntimes ntimes_out core_mpeak_at_z0 times redshifts
          output_indices results0) ∧
    (∀ m, m < ntimes →
      (runUpTo c nhalos ntimes_out core_mpeak_at_z0 times redshifts output_indices
        results0 m).iout < ntimes_out) := by
  constructor
  · intro oi' hagree
    exact runUpTo_congr_outIdx c nhalos ntimes_out ntimes core_mpeak_at_z0 times redshifts
      output_indices results0 hTout hmono hlast oi' hagree ntimes le_rfl
  · intro m hm
    exact runUpTo_iout_lt c nhalos ntimes_out ntimes core_mpeak_at_z0 times redshifts
      output_indices results0 hTout hmono hlast m hm

theorem C3_output_indices_reads_in_bounds_witness :
    (∀ oi' : ℕ → ℕ, (∀ k, k < 1 → oi' k = (fun _ => 0) k) →
      mstar_at_multi_zobs defaultSFRCoeffs 1 1 1 (fun _ => 1) (fun _ => 1) (fun _ => 0)
          oi' (fun _ => 0) =
        mstar_at_multi_zobs defaultSFRCoeffs 1 1 1 (fun _ => 1) (fun _ => 1) (fun _ => 0)
          (fun _ => 0) (fun _ => 0)) ∧
    (∀ m, m < 1 →
      (runUpTo defaultSFRCoeffs 1 1 (fun _ => 1) (fun _ => 1) (fun _ => 0) (fun _ => 0)
        (fun _ => 0) m).iout < 1) :=
  C3_output_indices_reads_in_bounds defaultSFRCoeffs 1 1 1 (fun _ => 1) (fun _ => 1)
    (fun _ => 0) (fun _ => 0) (fun _ => 0)
    (by norm_num)
    (by intro k1 k2 h12 h2; omega)
    (by intro k _; norm_num)
    (by norm_num)

/-- C8: running the integrator once on the concatenation of two halo
populations produces, in every (output slot, quantity) sub-block, exactly the
concatenation of the corresponding sub-blocks of the two separate runs — each
halo's outputs depend only on its own peak mass and the shared inputs. -/
theorem C8_halo_concatenation_independence (c : SFRCoeffs) (nA nB ntimes ntimes_out : ℕ)
    (fA fB times redshifts : ℕ → ℝ) (output_indices : ℕ → ℕ)
    (hTout : 0 < ntimes_out)
    (hmono : ∀ k1 k2, k1 < k2 → k2 < ntimes_out → output_indices k1 < output_indices k2)
    (hbound : ∀ k, k < ntimes_out → output_indices k < ntimes) :
    ∀ k, k < ntimes_out → ∀ h, h < nA + nB →
      (mstar_at_multi_zobs c (nA + nB) ntimes ntimes_out (concatPop nA fA fB) times
          redshifts output_indices (fun _ => 0)).results (k * (nA + nB) * 3 + h) =
        (if h < nA then
          (mstar_at_multi_zobs c nA ntimes ntimes_out fA times redshifts output_indices
            (fun _ => 0)).results (k * nA * 3 + h)
        else
          (mstar_at_multi_zobs c nB ntimes ntimes_out fB times redshifts output_indices
            (fun _ => 0)).results (k * nB * 3 + (h - nA))) ∧
      (mstar_at_multi_zobs c (nA + nB) ntimes ntimes_out (concatPop nA fA fB) times
          redshifts output_indices (fun _ => 0)).results (k * (nA + nB) * 3 + (nA + nB) + h) =
        (if h < nA then
          (mstar_at_multi_zobs c nA ntimes ntimes_out fA times redshifts output_indices
            (fun _ => 0)).results (k * nA * 3 + nA + h)
        else
          (mstar_at_multi_zobs c nB ntimes ntimes_out fB times redshifts output_indices
            (fun _ => 0)).results (k * nB * 3 + nB + (h - nA))) ∧
      (mstar_at_multi_zobs c (nA + nB) ntimes ntimes_out (concatPop nA fA fB) times
          redshifts output_indices (fun _ => 0)).results
            (k * (nA + nB) * 3 + 2 * (nA + nB) + h) =
        (if h < nA then
          (mstar_at_multi_zobs c nA ntimes ntimes_out fA times redshifts output_indices
            (fun _ => 0)).results (k * nA * 3 + 2 * nA + h)
        else
          (mstar_at_multi_zobs c nB ntimes ntimes_out fB times redshifts output_indices
            (fun _ => 0)).results (k * nB * 3 + 2 * nB + (h - nA))) := by
  intro k hk h hh
  obtain ⟨hiC, HC⟩ := master_final c (nA + nB) ntimes_out (concatPop nA fA fB) times
    redshifts output_indices (fun _ => 0) ntimes hTout hmono hbound
  by_cases hA : h < nA
  · obtain ⟨hiA, HA⟩ := master_final c nA ntimes_out fA times redshifts output_indices
      (fun _ => 0) ntimes hTout hmono hbound
    have econg : concatPop nA fA fB h = fA h := by
      unfold concatPop
      rw [if_pos hA]
    rw [if_pos hA, if_pos hA, if_pos hA]
    refine ⟨?_, ?_, ?_⟩
    · by_cases hkT : k = ntimes_out - 1
      · subst hkT
        rw [HC.acc_eq h hh, HA.acc_eq h hA,
          mstarEuler_congr c times redshifts (concatPop nA fA fB) fA h h ntimes econg]
      · rw [HC.mstar_eq h hh k (by omega) hk hkT, HA.mstar_eq h hA k (by omega) hk hkT,
          mstarEuler_congr c times redshifts (concatPop nA fA fB) fA h h
            (output_indices k + 1) econg]
    · rw [HC.sfr_eq h hh k (by omega) hk, HA.sfr_eq h hA k (by omega) hk,
        sfrOfStep_congr c redshifts (concatPop nA fA fB) fA h h (output_indices k) econg]
    · rw [HC.mhalo_eq h hh k (by omega) hk, HA.mhalo_eq h hA k (by omega) hk,
        haloMassOfStep_congr redshifts (concatPop nA fA fB) fA h h (output_indices k) econg]
  · obtain ⟨hiB, HB⟩ := master_final c nB ntimes_out fB times redshifts output_indices
      (fun _ => 0) ntimes hTout hmono hbound
    have hB : h - nA < nB := by omega
    have econg : concatPop nA fA fB h = fB (h - nA) := by
      unfold concatPop
      rw [if_neg hA]
    rw [if_neg hA, if_neg hA, if_neg hA]
    refine ⟨?_, ?_, ?_⟩
    · by_cases hkT : k = ntimes_out - 1
      · subst hkT
        rw [HC.acc_eq h hh, HB.acc_eq (h - nA) hB,
          mstarEuler_congr c times redshifts (concatPop nA fA fB) fB h (h - nA) ntimes econg]
      · rw [HC.mstar_eq h hh k (by omega) hk hkT,
          HB.mstar_eq (h - nA) hB k (by omega) hk hkT,
          mstarEuler_congr c times redshifts (concatPop nA fA fB) fB h (h - nA)
            (output_indices k + 1) econg]
    · rw [HC.sfr_eq h hh k (by omega) hk, HB.sfr_eq (h - nA) hB k (by omega) hk,
        sfrOfStep_congr c redshifts (concatPop nA fA fB) fB h (h - nA)
          (output_indices k) econg]
    · rw [HC.mhalo_eq h hh k (by omega) hk, HB.mhalo_eq (h - nA) hB k (by omega) hk,
        haloMassOfStep_congr redshifts (concatPop nA fA fB) fB h (h - nA)
          (output_indices k) econg]

theorem C8_halo_concatenation_independence_witness :
    (mstar_at_multi_zobs defaultSFRCoeffs (1 + 1) 1 1 (concatPop 1 (fun _ => 1) (fun _ => 2))
        (fun _ => 1) (fun _ => 0) (fun _ => 0) (fun _ => 0)).results (0 * (1 + 1) * 3 + 1) =
      (if 1 < 1 then
        (mstar_at_multi_zobs defaultSFRCoeffs 1 1 1 (fun _ => 1) (fun _ => 1) (fun _ => 0)
          (fun _ => 0) (fun _ => 0)).results (0 * 1 * 3 + 1)
      else
        (mstar_at_multi_zobs defaultSFRCoeffs 1 1 1 (fun _ => 2) (fun _ => 1) (fun _ => 0)
          (fun _ => 0) (fun _ => 0)).results (0 * 1 * 3 + (1 - 1))) ∧
    (mstar_at_multi_zobs defaultSFRCoeffs (1 + 1) 1 1 (concatPop 1 (fun _ => 1) (fun _ => 2))
        (fun _ => 1) (fun _ => 0) (fun _ => 0) (fun _ => 0)).results
          (0 * (1 + 1) * 3 + (1 + 1) + 1) =
      (if 1 < 1 then
        (mstar_at_multi_zobs defaultSFRCoeffs 1 1 1 (fun _ => 1) (fun _ => 1) (fun _ => 0)
          (fun _ => 0) (fun _ => 0)).results (0 * 1 * 3 + 1 + 1)
      else
        (mstar_at_multi_zobs defaultSFRCoeffs 1 1 1 (fun _ => 2) (fun _ => 1) (fun _ => 0)
          (fun _ => 0) (fun _ => 0)).results (0 * 1 * 3 + 1 + (1 - 1))) ∧
    (mstar_at_multi_zobs defaultSFRCoeffs (1 + 1) 1 1 (concatPop 1 (fun _ => 1) (fun _ => 2))
        (fun _ => 1) (fun _ => 0) (fun _ => 0) (fun _ => 0)).results
          (0 * (1 + 1) * 3 + 2 * (1 + 1) + 1) =
      (if 1 < 1 then
        (mstar_at_multi_zobs defaultSFRCoeffs 1 1 1 (fun _ => 1) (fun _ => 1) (fun _ => 0)
          (fun _ => 0) (fun _ => 0)).results (0 * 1 * 3 + 2 * 1 + 1)
      else
        (mstar_at_multi_zobs defaultSFRCoeffs 1 1 1 (fun _ => 2) (fun _ => 1) (fun _ => 0)
          (fun _ => 0) (fun _ => 0)).results (0 * 1 * 3 + 2 * 1 + (1 - 1))) :=
  C8_halo_concatenation_independence defaultSFRCoeffs 1 1 1 1 (fun _ => 1) (fun _ => 2)
    (fun _ => 1) (fun _ => 0) (fun _ => 0)
    (by norm_num)
    (by intro k1 k2 h12 h2; omega)
    (by intro k _; norm_num)
    0 (by norm_num) 1 (by norm_num)

/-- C10: when the results buffer is not zero-initialized, every stellar-mass
output of halo `h` is shifted additively by the value initially stored at the
final block's stellar-mass slot for `h` (the accumulator's backing store),
while all SFR and halo-mass outputs are identical to the zero-initialized
run's. -/
theorem C10_nonzero_buffer_shift (c : SFRCoeffs) (nhalos ntimes ntimes_out : ℕ)
    (core_mpeak_at_z0 times redshifts : ℕ → ℝ) (output_indices : ℕ → ℕ) (results0 : ℕ → ℝ)
    (hTout : 0 < ntimes_out)
    (hmono : ∀ k1 k2, k1 < k2 → k2 < ntimes_out → output_indices k1 < output_indices k2)
    (hbound : ∀ k, k < ntimes_out → output_indices k < ntimes) :
    ∀ h, h < nhalos → ∀ k, k < ntimes_out →
      (mstar_at_multi_zobs c nhalos ntimes ntimes_out core_mpeak_at_z0 times redshifts
          output_indices results0).results (k * nhalos * 3 + h) =
        (mstar_at_multi_zobs c nhalos ntimes ntimes_out core_mpeak_at_z0 times redshifts
          output_indices (fun _ => 0)).results (k * nhalos * 3 + h) +
          results0 ((ntimes_out - 1) * nhalos * 3 + h) ∧
      (mstar_at_multi_zobs c nhalos ntimes ntimes_out core_mpeak_at_z0 times redshifts
          output_indices results0).results (k * nhalos * 3 + nhalos + h) =
        (mstar_at_multi_zobs c nhalos ntimes ntimes_out core_mpeak_at_z0 times redshifts
          output_indices (fun _ => 0)).results (k * nhalos * 3 + nhalos + h) ∧
      (mstar_at_multi_zobs c nhalos ntimes ntimes_out core_mpeak_at_z0 times redshifts
          output_indices results0).results (k * nhalos * 3 + 2 * nhalos + h) =
        (mstar_at_multi_zobs c nhalos ntimes ntimes_out core_mpeak_at_z0 times redshifts
          output_indices (fun _ => 0)).results (k * nhalos * 3 + 2 * nhalos + h) := by
  intro h hh k hk
  obtain ⟨hi1, H1⟩ := master_final c nhalos ntimes_out core_mpeak_at_z0 times redshifts
    output_indices results0 ntimes hTout hmono hbound
  obtain ⟨hi0, H0⟩ := master_final c nhalos ntimes_out core_mpeak_at_z0 times redshifts
    output_indices (fun _ => 0) ntimes hTout hmono hbound
  refine ⟨?_, ?_, ?_⟩
  · by_cases hkT : k = ntimes_out - 1
    · subst hkT
      rw [H1.acc_eq h hh, H0.acc_eq h hh]
      ring
    · rw [H1.mstar_eq h hh k (by omega) hk hkT, H0.mstar_eq h hh k (by omega) hk hkT]
      ring
  · rw [H1.sfr_eq h hh k (by omega) hk, H0.sfr_eq h hh k (by omega) hk]
  · rw [H1.mhalo_eq h hh k (by omega) hk, H0.mhalo_eq h hh k (by omega) hk]

theorem C10_nonzero_buffer_shift_witness :
    (mstar_at_multi_zobs defaultSFRCoeffs 1 1 1 (fun _ => 1) (fun _ => 1) (fun _ => 0)
        (fun _ => 0) (fun _ => 5)).results (0 * 1 * 3 + 0) =
      (mstar_at_multi_zobs defaultSFRCoeffs 1 1 1 (fun _ => 1) (fun _ => 1) (fun _ => 0)
        (fun _ => 0) (fun _ => 0)).results (0 * 1 * 3 + 0) +
        (fun _ : ℕ => (5 : ℝ)) ((1 - 1) * 1 * 3 + 0) ∧
    (mstar_at_multi_zobs defaultSFRCoeffs 1 1 1 (fun _ => 1) (fun _ => 1) (fun _ => 0)
        (fun _ => 0) (fun _ => 5)).results (0 * 1 * 3 + 1 + 0) =
      (mstar_at_multi_zobs defaultSFRCoeffs 1 1 1 (fun _ => 1) (fun _ => 1) (fun _ => 0)
        (fun _ => 0) (fun _ => 0)).results (0 * 1 * 3 + 1 + 0) ∧
    (mstar_at_multi_zobs defaultSFRCoeffs 1 1 1 (fun _ => 1) (fun _ => 1) (fun _ => 0)
        (fun _ => 0) (fun _ => 5)).results (0 * 1 * 3 + 2 * 1 + 0) =
      (mstar_at_multi_zobs defaultSFRCoeffs 1 1 1 (fun _ => 1) (fun _ => 1) (fun _ => 0)
        (fun _ => 0) (fun _ => 0)).results (0 * 1 * 3 + 2 * 1 + 0) :=
  C10_nonzero_buffer_shift defaultSFRCoeffs 1 1 1 (fun _ => 1) (fun _ => 1) (fun _ => 0)
    (fun _ => 0) (fun _ => 5)
    (by norm_num)
    (by intro k1 k2 h12 h2; omega)
    (by intro k _; norm_num)
    0 (by norm_num) 0 (by norm_num)

end Chopper
